import Mathlib

/-!
# Turn engine of the tactical battle game (`src/js/GameController.js`)

A shallow embedding of `GameController` and proofs about it.

* JavaScript numbers that the controller treats as integers (stats, cell
  indices, level, score) are `Int`.  The one fractional computation, the damage
  formula, follows binary64 arithmetic: the difference `attack - defence` and
  the product `attack * 0.1` are rounded to 53 significant bits, ties to even
  (`roundNat53`), and the doubles so obtained are handled as the rationals in
  `ℚ` that they denote.  The stats are taken to be integers that a double
  holds, and far from the overflow threshold of the format.
* A `position` is `Option Int`: `none` stands for the JavaScript value
  `undefined`, which array indexing past the end produces.
* The roster holds references to mutable `PositionedCharacter` objects and
  `selectedChar` is one more reference to one of them.  The embedding keeps
  values; wherever the source mutates an object, the copy held by
  `selectedChar` is updated too when it is that object (`realias`).
* `Math.random()` is an explicit list of future draws.
* The collaborators that live in other files (`utils.js`, `generators.js`,
  `Character.js`) are the fields of `Env`.
-/

namespace GameController

/-! ## Data model -/

/-- The fields of a `Character` that the controller reads or writes. -/
structure Character where
  level : Int
  attack : Int
  defence : Int
  health : Int
  isPlayer : Bool
  step : Int
  range : Int
deriving DecidableEq, Repr

/-- A character on the board; `position = none` is JavaScript `undefined`. -/
structure PositionedCharacter where
  character : Character
  position : Option Int
deriving DecidableEq, Repr

/-- The object kept in `this.state`. -/
structure GameState where
  currentLevel : Int
  teams : List PositionedCharacter
  numberOfPoints : Int
  playerTurn : Bool
  record : Int
deriving DecidableEq, Repr

/-! ## Combat -/

/-- The number of low bits that a natural number has beyond 53: the count of
halvings that bring `n` below `2 ^ 53`.  The first argument bounds the
recursion; `n` itself is enough (`excessBits_spec`). -/
def excessBits : Nat → Nat → Nat
  | 0, _ => 0
  | fuel + 1, n => if n < 2 ^ 53 then 0 else excessBits fuel (n / 2) + 1

/-- The double nearest to the natural number `n`: `n` rounded to 53
significant bits, to the even significand when two doubles are equally near
(the rounding of every binary64 operation). -/
def roundNat53 (n : Nat) : Nat :=
  let s := excessBits n n
  let q := n / 2 ^ s
  let r := n % 2 ^ s
  if 2 * r < 2 ^ s then q * 2 ^ s
  else if 2 * r = 2 ^ s then (if q % 2 = 0 then q else q + 1) * 2 ^ s
  else (q + 1) * 2 ^ s

/-- The double nearest to an integer; the rounding is symmetric in the sign. -/
def roundInt53 (z : Int) : Int :=
  if z < 0 then -(roundNat53 z.natAbs : Int) else (roundNat53 z.natAbs : Int)

/-- The literal `0.1` of line 218 is the double `3602879701896397 / 2 ^ 55`
(bits `0x3FB999999999999A`, significand `7205759403792794` over `2 ^ 56`), a
little above one tenth. -/
def tenthNumerator : Int := 3602879701896397

/-- The double `attack * 0.1` of line 218: the exact product
`a * 3602879701896397 / 2 ^ 55` rounded to 53 significant bits.  Scaling by a
power of two commutes with the rounding, so the numerator is rounded. -/
def timesTenth (a : Int) : ℚ := (roundInt53 (a * tenthNumerator) : ℚ) / 2 ^ 55

/-- The double `attack - defence` of line 217: the exact difference rounded to
53 significant bits. -/
def minusDouble (a d : Int) : ℚ := (roundInt53 (a - d) : ℚ)

/-- `Number.prototype.toFixed()` with zero digits followed by unary `+`, on the
value `x` of a double: the integer nearest to `x`, the larger one of two
equally near ones; a negative `x` is negated first and the sign is put back.
`toFixed` works on the exact value of its receiver, and the integer nearest to
a double is a double again, so no further rounding takes place. -/
def toFixed (x : ℚ) : Int :=
  if x < 0 then -⌊-x + 1 / 2⌋ else ⌊x + 1 / 2⌋

/-- The constant `attackPoints` of `attackTheEnemy` (lines 216-219):
`+Math.max(attack - defence, attack * 0.1).toFixed()` in double arithmetic. -/
def attackPoints (attacker enemy : PositionedCharacter) : Int :=
  toFixed (max (minusDouble attacker.character.attack enemy.character.defence)
    (timesTenth attacker.character.attack))

/-- Modelled from the spec: `Character.damage` of `Character.js`, which is not
among the sources.  Section 4.2 of the specification gives the remaining health
as `max(health - damage, 0)`. -/
def Character.damage (ch : Character) (points : Int) : Character :=
  { ch with health := max (ch.health - points) 0 }

/-! ## Collaborators and controller state -/

/-- What the controller imports from files that are not among the sources.
The geometry predicates receive positions as they are, `undefined` included.
`generateTeam player level count boardSize` stands for
`generateTeam(new Team().playerTeams | npcTeams, level, count, boardSize?)`. -/
structure Env where
  boardSize : Nat
  isStepPossible : Option Int → Option Int → Int → Bool
  isAttackPossible : Option Int → Option Int → Int → Bool
  generateTeam : Bool → Int → Int → Option Nat → List PositionedCharacter
  generateCoordinates : Nat → List Int
  levelUp : Character → Character
  statsUp : Character → Character

/-- The texts handed to `showTooltip` and `showMessage`. -/
inductive Message
  | impossibleToGo
  | tooFar
  | notPlayable
  | newGame
  | saved
  | loaded
  | loadFailed
  | nextLevel
  | youLose
  | youWon
deriving DecidableEq, Repr

/-- Calls that leave the controller, plus markers for entering the methods
whose invocations the specification counts.  Purely cosmetic calls (cursor,
cell highlighting, redraw, theme) never feed back into the controller and are
not recorded. -/
inductive Event
  | showTooltip (m : Message)
  | showMessage (m : Message)
  | showDamage (position : Option Int) (points : Int)
  | unsubscribe
  | unsubscribeAllMouseListeners
  | addCellClickListener
  | addCellEnterListener
  | addCellLeaveListener
  | addNewGameListener
  | addSaveGameListener
  | addLoadGameListener
  | save (state : GameState)
  | endOfTurn
  | stepAI
  | nextLevel
  | endGame
deriving DecidableEq, Repr

/-- The fields of a `GameController` instance, the calls it has made so far
(`trace`, oldest first) and the outcomes of the `Math.random()` calls still to
come (`rnd`).  A flag that was never assigned is `undefined`, hence falsy,
hence `false`. -/
structure Controller where
  state : GameState
  selectedChar : Option PositionedCharacter
  prevSelectedCharIndex : Option Int
  stepIsPossible : Bool
  attackIsPossible : Bool
  trace : List Event
  rnd : List Nat
deriving DecidableEq, Repr

/-- How a method call ended. -/
inductive Result
  | done (c : Controller)
  | thrown (c : Controller)
  | fuel
deriving DecidableEq, Repr

/-- The controller a call left behind, when the call came to an end. -/
def Result.controller? : Result → Option Controller
  | .done c => some c
  | .thrown c => some c
  | .fuel => none

/-- Sequencing of statements: an exception or exhausted fuel skips the rest. -/
def Result.andThen (r : Result) (k : Controller → Result) : Result :=
  match r with
  | .done c => k c
  | .thrown c => .thrown c
  | .fuel => .fuel

/-- Records a call in the trace. -/
def Controller.log (c : Controller) (e : Event) : Controller :=
  { c with trace := c.trace ++ [e] }

/-- Assignment to `this.state.teams` and `updateState` with key `teams`. -/
def Controller.setTeams (c : Controller) (teams : List PositionedCharacter) : Controller :=
  { c with state := { c.state with teams := teams } }

/-- Stands for `updateState` with key `playerTurn`. -/
def Controller.setPlayerTurn (c : Controller) (b : Bool) : Controller :=
  { c with state := { c.state with playerTurn := b } }

/-- The value `Math.floor(Math.random() * n)` for the next draw `r`: some index
below `n`, and `0` when `n = 0`. -/
def randomIndex (n r : Nat) : Nat := if n = 0 then 0 else r % n

/-- One call of `Math.floor(Math.random() * n)`: consumes the next draw. -/
def random (n : Nat) (rnd : List Nat) : Nat × List Nat :=
  match rnd with
  | [] => (0, [])
  | r :: rest => (randomIndex n r, rest)

/-- The object `old` was mutated into `new`: a selection that is this object
sees the mutation. -/
def realias (old new : PositionedCharacter) (sel : Option PositionedCharacter) :
    Option PositionedCharacter :=
  if sel = some old then some new else sel

/-! ## Queries (lines 73-79 and 428-439) -/

def getNPCTeam (c : Controller) : List PositionedCharacter :=
  c.state.teams.filter (fun char => !char.character.isPlayer)

def getPlayerTeam (c : Controller) : List PositionedCharacter :=
  c.state.teams.filter (fun char => char.character.isPlayer)

def haveACharacter (c : Controller) (index : Int) : Bool :=
  c.state.teams.any (fun char => char.position == some index)

def findCurrentChar (c : Controller) (index : Int) : Option PositionedCharacter :=
  c.state.teams.find? (fun character => character.position == some index)

def filterCharacter (c : Controller) (character : PositionedCharacter) :
    List PositionedCharacter :=
  c.state.teams.filter (fun char => char.position != character.position)

/-- The sum `getPlayerTeam().reduce((acc, prev) => acc + prev.character.health, 0)`. -/
def playerHealth (c : Controller) : Int :=
  (getPlayerTeam c).foldl (fun acc prev => acc + prev.character.health) 0

/-! ## Roster updates -/

/-- The three statements shared by the player move (lines 97-101) and the
move of the opposing side (lines 282-286): drop what stands on the unit's
cell, give the unit its new position, append it. -/
def relocate (c : Controller) (unit : PositionedCharacter) (cell : Option Int) : Controller :=
  let rest := filterCharacter c unit
  let moved : PositionedCharacter := { unit with position := cell }
  { c with
    state := { c.state with teams := rest ++ [moved] }
    selectedChar := realias unit moved c.selectedChar }

/-- The body of `attackTheEnemy` up to the call of `showDamage` (lines 210-229);
what the promise does afterwards is `afterShowDamage`. -/
def attackTheEnemy (c : Controller) (attacker defender : Option PositionedCharacter) :
    Controller :=
  let c := c.log .unsubscribe
  match attacker, defender with
  | some attacker, some defender =>
    let enemy := defender
    let points := attackPoints attacker enemy
    let rest := filterCharacter c defender
    let hit : PositionedCharacter := { enemy with character := enemy.character.damage points }
    let c := { c with selectedChar := realias enemy hit c.selectedChar }
    let c := if hit.character.health > 0 then c.setTeams (rest ++ [hit]) else c.setTeams rest
    c.log (.showDamage defender.position points)
  | _, _ => c

/-- Lines 413-426. -/
def renderScore (c : Controller) : Controller :=
  let newRecord :=
    if c.state.record > c.state.numberOfPoints then c.state.record else c.state.numberOfPoints
  { c with state := { c.state with record := newRecord } }

/-- Lines 398-411. -/
def endGame (c : Controller) : Controller :=
  let c := c.log .endGame
  let currentLevel := c.state.currentLevel - 1
  let newPoints := c.state.numberOfPoints + playerHealth c
  let c := { c with state := { c.state with currentLevel := currentLevel, numberOfPoints := newPoints } }
  let c := renderScore c
  (c.log (.showMessage .youWon)).log .unsubscribeAllMouseListeners

/-! ## Level progression (lines 335-396) -/

/-- The loop of lines 367-373: each unit in turn draws a cell from what is
left of `playerCoordinates`; an empty array yields `undefined`. -/
def reposition : List PositionedCharacter → List Int → List Nat →
    List PositionedCharacter × List Nat
  | [], _, rnd => ([], rnd)
  | prev :: rest, playerCoordinates, rnd =>
    let (idx, rnd) := random playerCoordinates.length rnd
    let moved : PositionedCharacter := { prev with position := playerCoordinates[idx]? }
    let (others, rnd) := reposition rest (playerCoordinates.eraseIdx idx) rnd
    (moved :: others, rnd)

/-- The selection after every object of `old` was mutated into the object at
the same place of `new`. -/
def realiasAll (old new : List PositionedCharacter) (sel : Option PositionedCharacter) :
    Option PositionedCharacter :=
  match sel with
  | none => none
  | some s =>
    match (old.zip new).find? (fun p => p.1 = s) with
    | some p => some p.2
    | none => some s

/-- Lines 382-386.  Modelled from the spec: `statsUp` of `Character.js` is not
among the sources; section 4.4 has the increment repeated `level - 1` times,
so `statsUp` is taken to leave `level` as it is. -/
def boostStats (env : Env) (char : PositionedCharacter) : PositionedCharacter :=
  { char with character := (env.statsUp)^[(char.character.level - 1).toNat] char.character }

/-- The method `nextLevel`. -/
def nextLevel (env : Env) (c : Controller) : Controller :=
  let c := (c.log .nextLevel).log .unsubscribe
  let c := { c with state := { c.state with currentLevel := c.state.currentLevel + 1 } }
  if c.state.currentLevel > 4 then endGame c
  else
    let newPoints := c.state.numberOfPoints + playerHealth c
    let c := { c with state := { c.state with numberOfPoints := newPoints } }
    let c := renderScore c
    let playerCoordinates := env.generateCoordinates env.boardSize
    let before := c.state.teams
    let levelUpTeams := before.map
      (fun prev => ({ prev with character := env.levelUp prev.character } : PositionedCharacter))
    let c := c.setTeams levelUpTeams
    let quantityChar : Int := if c.state.currentLevel > 3 then 2 else 1
    let newPlayerTeam := env.generateTeam true (c.state.currentLevel - 1) quantityChar none
    let (updateTeams, rnd) := reposition (c.state.teams ++ newPlayerTeam) playerCoordinates c.rnd
    let c := { c with rnd := rnd, selectedChar := realiasAll before updateTeams c.selectedChar }
    let c := c.setTeams updateTeams
    let newNPCTeams :=
      (env.generateTeam false c.state.currentLevel (getPlayerTeam c).length none).map
        (boostStats env)
    let c := c.setTeams (c.state.teams ++ newNPCTeams)
    (((c.log .addCellClickListener).log .addCellEnterListener).log .addCellLeaveListener).log
      (.showTooltip .nextLevel)

/-! ## The opposing side and the end of a turn (lines 236-332) -/

/-- The search result of `indexStep`. -/
inductive StepSearch
  | found (cell : Option Int) (rnd : List Nat)
  | overflow
  | fuel
deriving DecidableEq, Repr

/-- The closure `indexStep` of `stepAI` (lines 272-280) with its array
`arrayOfCell` as an argument.  On the empty array `arrayOfCell[idx]` is
`undefined` and `splice` removes nothing, so a failed test repeats the same
call for ever (`overflow`).  The first argument bounds the depth of the
recursion in the embedding. -/
def indexStep (env : Env) (npc : PositionedCharacter) :
    Nat → List Int → List Nat → StepSearch
  | 0, _, _ => .fuel
  | fuel + 1, arrayOfCell, rnd =>
    let (idx, rnd) := random arrayOfCell.length rnd
    let isStep := env.isStepPossible npc.position arrayOfCell[idx]? npc.character.step
    if !isStep then
      if arrayOfCell.isEmpty then .overflow
      else indexStep env npc fuel (arrayOfCell.eraseIdx idx) rnd
    else .found arrayOfCell[idx]? rnd

/-- The array `canAttackEnemies` (lines 242-257). -/
def canAttackEnemies (env : Env) (c : Controller) :
    List (PositionedCharacter × List PositionedCharacter) :=
  let npcTeam := getNPCTeam c
  let playerTeam := getPlayerTeam c
  npcTeam.filterMap (fun prev =>
    let playerChar := playerTeam.filter
      (fun userChar => env.isAttackPossible prev.position userChar.position prev.character.range)
    if playerChar.length > 0 then some (prev, playerChar) else none)

/-- The array `arrayOfCell` (lines 264-271): the cells of the board on which
nothing stands. -/
def arrayOfCell (env : Env) (c : Controller) : List Int :=
  let bannedPositions := c.state.teams.map (fun prev => prev.position)
  ((List.range (env.boardSize ^ 2)).map Int.ofNat).filter
    (fun position => !bannedPositions.contains (some position))

mutual

/-- The method `endOfTurn`; the first argument bounds the depth of the mutual
calls in the embedding (see `endOfTurnAux_enough`). -/
def endOfTurnAux (env : Env) : Nat → Controller → Result
  | 0, _ => .fuel
  | fuel + 1, c =>
    let c := c.log .endOfTurn
    match c.selectedChar with
    | none => .thrown c
    | some selectedChar =>
      let c := { c with
        selectedChar := if selectedChar.character.health = 0 then none else some selectedChar }
      if (getPlayerTeam c).length = 0 then
        .done ((c.log (.showMessage .youLose)).log .unsubscribeAllMouseListeners)
      else if (getNPCTeam c).length = 0 then
        .done (nextLevel env (c.setPlayerTurn false))
      else
        let c := { c with prevSelectedCharIndex := none }
        if c.state.playerTurn then stepAIAux env fuel (c.setPlayerTurn false)
        else .done (c.setPlayerTurn true)

/-- The method `stepAI`.  An attack ends at `showDamage`; the turn goes on in
`afterShowDamage`. -/
def stepAIAux (env : Env) : Nat → Controller → Result
  | 0, _ => .fuel
  | fuel + 1, c =>
    let c := c.log .stepAI
    if (getNPCTeam c).length = 0 || (getPlayerTeam c).length = 0 then .done c
    else
      let npcTeam := getNPCTeam c
      let candidates := canAttackEnemies env c
      let (i, rnd) := random candidates.length c.rnd
      let c := { c with rnd := rnd }
      match candidates[i]? with
      | some attacker =>
        let (j, rnd) := random attacker.2.length c.rnd
        let c := { c with rnd := rnd }
        .done (attackTheEnemy c (some attacker.1) attacker.2[j]?)
      | none =>
        let (k, rnd) := random npcTeam.length c.rnd
        let c := { c with rnd := rnd }
        match npcTeam[k]? with
        | none => .thrown c
        | some npc =>
          let cells := arrayOfCell env c
          match indexStep env npc (cells.length + 1) cells c.rnd with
          | .fuel => .fuel
          | .overflow => .thrown c
          | .found indexSteps rnd =>
            let c := { c with rnd := rnd }
            endOfTurnAux env fuel (relocate c npc indexSteps)

end

/-- The method `endOfTurn`. -/
def endOfTurn (env : Env) (c : Controller) : Result := endOfTurnAux env 4 c

/-- The method `stepAI`. -/
def stepAI (env : Env) (c : Controller) : Result := stepAIAux env 4 c

/-- The two `then` callbacks that `attackTheEnemy` hangs on the promise of
`showDamage` (lines 230-233). -/
def afterShowDamage (env : Env) (c : Controller) : Result :=
  endOfTurn env (c.log .addCellClickListener)

/-! ## Handlers of the user interface -/

/-- Lines 106-126 of `onCellClick`: the four tests that follow the move, on
the values `isCharacter` and `currentChar` computed when the click arrived. -/
def onCellClickRest (c : Controller) (index : Int) (isCharacter : Bool)
    (currentChar : Option PositionedCharacter) : Result :=
  if !c.stepIsPossible && !isCharacter && c.selectedChar.isSome then
    .done (c.log (.showTooltip .impossibleToGo))
  else if c.attackIsPossible && c.selectedChar.any (fun s => s.position != some index) then
    .done (attackTheEnemy c c.selectedChar currentChar)
  else if isCharacter && c.selectedChar.isSome
      && currentChar.any (fun cur => !cur.character.isPlayer) then
    .done (c.log (.showTooltip .tooFar))
  else if isCharacter && currentChar.any (fun cur => !cur.character.isPlayer) then
    .done (c.log (.showTooltip .notPlayable))
  else .done c

/-- The method `onCellClick` (lines 81-127). -/
def onCellClick (env : Env) (c : Controller) (index : Int) : Result :=
  let isCharacter := haveACharacter c index
  let currentChar := findCurrentChar c index
  let c :=
    match currentChar with
    | some cur =>
      if isCharacter && cur.character.isPlayer then
        { c with selectedChar := some cur, prevSelectedCharIndex := some index }
      else c
    | none => c
  let moved : Result :=
    match c.selectedChar with
    | some selectedChar =>
      if c.stepIsPossible && !isCharacter then
        endOfTurn env (relocate c selectedChar (some index))
      else .done c
    | none => .done c
  moved.andThen fun c => onCellClickRest c index isCharacter currentChar

/-- The method `onCellEnter` (lines 129-161). -/
def onCellEnter (env : Env) (c : Controller) (index : Int) : Controller :=
  let isCharacter := haveACharacter c index
  let currentChar := findCurrentChar c index
  let c :=
    match c.selectedChar with
    | some selectedChar =>
      if !isCharacter then
        { c with stepIsPossible :=
            env.isStepPossible selectedChar.position (some index) selectedChar.character.step }
      else c
    | none => c
  if isCharacter then
    match c.selectedChar, currentChar with
    | some selectedChar, some cur =>
      if !cur.character.isPlayer then
        { c with attackIsPossible :=
            env.isAttackPossible selectedChar.position cur.position selectedChar.character.range }
      else c
    | _, _ => c
  else c

/-- The method `onCellLeave` (lines 163-167) makes cosmetic calls only. -/
def onCellLeave (c : Controller) (_index : Int) : Controller := c

/-- The method `prepareGame` (lines 32-45). -/
def prepareGame (env : Env) (c : Controller) : Controller :=
  let playerTeams := env.generateTeam true 1 2 (some env.boardSize)
  let npcTeams := env.generateTeam false 1 2 (some env.boardSize)
  { c with
    state := { c.state with
      currentLevel := 1
      teams := playerTeams ++ npcTeams
      numberOfPoints := 0
      playerTurn := true }
    prevSelectedCharIndex := none
    selectedChar := none }

/-- The three calls `clickOnCells`, `overOnCells`, `leaveOnCells`. -/
def subscribeCells (c : Controller) : Controller :=
  ((c.log .addCellClickListener).log .addCellEnterListener).log .addCellLeaveListener

/-- The method `init` (lines 16-30) on a controller fresh from its constructor;
`rnd` holds the draws of the whole play. -/
def init (env : Env) (rnd : List Nat) : Controller :=
  let c : Controller :=
    { state := { currentLevel := 0, teams := [], numberOfPoints := 0, playerTurn := false,
                 record := 0 }
      selectedChar := none
      prevSelectedCharIndex := none
      stepIsPossible := false
      attackIsPossible := false
      trace := []
      rnd := rnd }
  let c := prepareGame env c
  let c := subscribeCells c
  let c := ((c.log .addNewGameListener).log .addSaveGameListener).log .addLoadGameListener
  renderScore c

/-- The method `onNewGame` (lines 169-177). -/
def onNewGame (env : Env) (c : Controller) : Controller :=
  let c := c.log .unsubscribeAllMouseListeners
  let c := prepareGame env c
  let c := subscribeCells c
  let c := renderScore c
  c.log (.showTooltip .newGame)

/-- The method `onSaveGame` (lines 179-182). -/
def onSaveGame (c : Controller) : Controller :=
  (c.log (.showTooltip .saved)).log (.save c.state)

/-- The method `onLoadGame` (lines 184-208); `loaded` is what
`stateService.load()` returns, `none` when it throws. -/
def onLoadGame (c : Controller) (loaded : Option GameState) : Controller :=
  let c := { c with selectedChar := none }
  match loaded with
  | none => c.log (.showTooltip .loadFailed)
  | some loadState =>
    let c := { c with state := { c.state with
      currentLevel := loadState.currentLevel
      teams := loadState.teams
      numberOfPoints := loadState.numberOfPoints
      playerTurn := loadState.playerTurn } }
    let c := renderScore c
    c.log (.showTooltip .loaded)

/-! ## Properties of rosters -/

/-- No two roster entries share a position. -/
def DistinctPositions (teams : List PositionedCharacter) : Prop :=
  (teams.map (fun char => char.position)).Nodup

instance (teams : List PositionedCharacter) : Decidable (DistinctPositions teams) := by
  unfold DistinctPositions; infer_instance

/-- Every roster entry stands on a cell: no position is `undefined`. -/
def AllPlaced (teams : List PositionedCharacter) : Prop :=
  ∀ char ∈ teams, char.position.isSome = true

instance (teams : List PositionedCharacter) : Decidable (AllPlaced teams) := by
  unfold AllPlaced; infer_instance

/-! ## Plays -/

/-- What reaches the controller from outside: the events of the user
interface and the settling of the promise of `showDamage`. -/
inductive Input
  | cellClick (index : Int)
  | cellEnter (index : Int)
  | cellLeave (index : Int)
  | damageShown
  | newGame
  | saveGame
  | loadGame (loaded : Option GameState)
deriving DecidableEq, Repr

/-- The listener that an input runs. -/
def handle (env : Env) (c : Controller) : Input → Result
  | .cellClick index => onCellClick env c index
  | .cellEnter index => .done (onCellEnter env c index)
  | .cellLeave index => .done (onCellLeave c index)
  | .damageShown => afterShowDamage env c
  | .newGame => .done (onNewGame env c)
  | .saveGame => .done (onSaveGame c)
  | .loadGame loaded => .done (onLoadGame c loaded)

/-- A sequence of inputs, one listener after the other; a listener that threw
leaves the controller as it was at the throw. -/
def play (env : Env) : Controller → List Input → Result
  | c, [] => .done c
  | c, input :: rest =>
    match handle env c input with
    | .done c => play env c rest
    | .thrown c => play env c rest
    | .fuel => .fuel

/-- The first player unit is selected, the pointer visits the empty cell 1
next to it and then cell 63, the unit there is attacked and dies, and the
opposing side takes its turn. -/
def staleFlagPlay : List Input :=
  [.cellClick 0, .cellEnter 1, .cellEnter 63, .cellClick 63, .damageShown]

/-- The first player unit kills both units of the opposing side, with the
pointer on each before the click. -/
def firstLevelPlay : List Input :=
  [.cellClick 0, .cellEnter 63, .cellClick 63, .damageShown,
   .cellEnter 54, .cellClick 54, .damageShown]

/-- What the plays below are judged by: level, whose turn it is, the cached
step flag, where the selected unit stands and how far it steps, where each
unit stands and whether it is a player unit, and how often `endOfTurn` and
`stepAI` have been entered. -/
structure Summary where
  currentLevel : Int
  playerTurn : Bool
  stepIsPossible : Bool
  selected : Option (Option Int × Int)
  roster : List (Option Int × Bool)
  endOfTurnCalls : Nat
  stepAICalls : Nat
deriving DecidableEq, Repr

/-- The summary of a controller. -/
def Controller.summary (c : Controller) : Summary :=
  { currentLevel := c.state.currentLevel
    playerTurn := c.state.playerTurn
    stepIsPossible := c.stepIsPossible
    selected := c.selectedChar.map (fun u => (u.position, u.character.step))
    roster := c.state.teams.map (fun u => (u.position, u.character.isPlayer))
    endOfTurnCalls := c.trace.count Event.endOfTurn
    stepAICalls := c.trace.count Event.stepAI }

/-! ## Sample units -/

/-- A player unit with the given attack and health on the given cell. -/
def samplePlayer (attack health : Int) (cell : Int) : PositionedCharacter :=
  { character := { level := 1, attack := attack, defence := 5, health := health,
                   isPlayer := true, step := 1, range := 1 }
    position := some cell }

/-- A unit of the opposing side with the given defence and health on the given cell. -/
def sampleEnemy (defence health : Int) (cell : Int) : PositionedCharacter :=
  { character := { level := 1, attack := 10, defence := defence, health := health,
                   isPlayer := false, step := 1, range := 1 }
    position := some cell }

/-- A controller at rest with the given roster and selection. -/
def sampleController (teams : List PositionedCharacter)
    (selectedChar : Option PositionedCharacter) : Controller :=
  { state := { currentLevel := 1, teams := teams, numberOfPoints := 0, playerTurn := true,
               record := 0 }
    selectedChar := selectedChar
    prevSelectedCharIndex := none
    stepIsPossible := false
    attackIsPossible := false
    trace := []
    rnd := [] }


/-! ## A sample board -/

/-- Chebyshev distance between two cells of a board with the given side. -/
def sampleDistance (side : Int) (a b : Int) : Int :=
  max (|a / side - b / side|) (|a % side - b % side|)

/-- A geometry predicate for the sample board: both cells are given and at
most `radius` apart. -/
def sampleReach (a b : Option Int) (radius : Int) : Bool :=
  match a, b with
  | some a, some b => decide (sampleDistance 8 a b ≤ radius)
  | _, _ => false

/-- Collaborators for an 8 by 8 board.  Player units start in the left column
and unit `i` of the opposing side on cell `63 - 8 * i`. -/
def sampleEnv : Env :=
  { boardSize := 8
    isStepPossible := sampleReach
    isAttackPossible := sampleReach
    generateTeam := fun player level count _ =>
      (List.range count.toNat).map (fun i =>
        if player then
          { character := { level := level, attack := 60, defence := 10, health := 50,
                           isPlayer := true, step := 1, range := 7 }
            position := some (8 * (i : Int)) }
        else
          { character := { level := level, attack := 10, defence := 10, health := 50,
                           isPlayer := false, step := 1, range := 1 }
            position := some (63 - 8 * (i : Int)) })
    generateCoordinates := fun _ => [0, 1, 8, 9, 16, 17, 24, 25, 32, 33, 40, 41, 48, 49, 56, 57]
    levelUp := fun ch => { ch with level := ch.level + 1, health := min (ch.health + 80) 100 }
    statsUp := fun ch => { ch with attack := ch.attack + 5, defence := ch.defence + 5 } }

/-- A controller in the middle of a turn of the opposing side, first player
unit selected, both cached flags set. -/
def busyController : Controller :=
  { state := { currentLevel := 1, numberOfPoints := 0, playerTurn := false, record := 0,
               teams := [samplePlayer 20 50 0, samplePlayer 20 50 8, sampleEnemy 15 3 1] }
    selectedChar := some (samplePlayer 20 50 0)
    prevSelectedCharIndex := some 0
    stepIsPossible := true
    attackIsPossible := true
    trace := []
    rnd := [] }

/-! ## Derived descriptions -/

/-- The step flag after `onCellEnter`. -/
def enteredStep (env : Env) (c : Controller) (index : Int) : Bool :=
  match c.selectedChar with
  | some s =>
    if haveACharacter c index then c.stepIsPossible
    else env.isStepPossible s.position (some index) s.character.step
  | none => c.stepIsPossible

/-- The attack flag after `onCellEnter`. -/
def enteredAttack (env : Env) (c : Controller) (index : Int) : Bool :=
  match c.selectedChar, findCurrentChar c index with
  | some s, some cur =>
    if haveACharacter c index && !cur.character.isPlayer then
      env.isAttackPossible s.position cur.position s.character.range
    else c.attackIsPossible
  | _, _ => c.attackIsPossible

/-- The property holds of the controller that a call left behind. -/
def Result.All (p : Controller → Prop) : Result → Prop
  | .done c => p c
  | .thrown c => p c
  | .fuel => True

/-! ## Construction of a positioned character -/

/-- The JavaScript values that may be handed to a constructor; `character`
stands for an instance of `Character` or of a class that inherits from it. -/
inductive JSValue
  | undefined
  | null
  | boolean (b : Bool)
  | number (x : ℚ)
  | string (s : String)
  | plainObject
  | character (ch : Character)
deriving DecidableEq

/-- Why the constructor of `PositionedCharacter` throws. -/
inductive ConstructionError
  | notACharacter
  | positionNotInteger
deriving DecidableEq, Repr

/-- Modelled from the spec: the constructor of `PositionedCharacter`, whose
file `PositionedCharacter.js` is not among the sources (its test is).  Section
3 of the specification: constructing one with a non-Character payload or a
non-integer position is a construction-time error. -/
def PositionedCharacter.construct (character position : JSValue) :
    Except ConstructionError PositionedCharacter :=
  match character with
  | .character ch =>
    match position with
    | .number x =>
      if x.isInt then .ok { character := ch, position := some x.num }
      else .error .positionNotInteger
    | _ => .error .positionNotInteger
  | _ => .error .notACharacter

/-- A level 1 archer as `new Bowman(1)` of the test builds it. -/
def sampleBowman : Character :=
  { level := 1, attack := 25, defence := 25, health := 50, isPlayer := true, step := 2,
    range := 2 }

/-- The unit of the opposing side that line 263 of `stepAI` picks when nobody
can attack: the first draw went to line 258, the second picks the unit. -/
def pickedNPC (c : Controller) : Option PositionedCharacter :=
  (getNPCTeam c)[(random (getNPCTeam c).length (random 0 c.rnd).2).1]?

/-! ## More sample controllers -/

/-- One player unit on cell 0 and one unit of the opposing side on cell 63,
out of each other's range, just before the opposing side acts. -/
def farController : Controller :=
  { state := { currentLevel := 1, numberOfPoints := 0, playerTurn := false, record := 0,
               teams := [samplePlayer 20 50 0, sampleEnemy 15 3 63] }
    selectedChar := some (samplePlayer 20 50 0)
    prevSelectedCharIndex := none
    stepIsPossible := false
    attackIsPossible := false
    trace := []
    rnd := [] }

/-- As `farController`, with three more units of the opposing side on the
cells around cell 63: the unit in the corner (step 1) cannot move. -/
def boxedController : Controller :=
  { state := { currentLevel := 1, numberOfPoints := 0, playerTurn := false, record := 0,
               teams := [samplePlayer 20 50 0, sampleEnemy 15 3 63, sampleEnemy 15 3 62,
                         sampleEnemy 15 3 55, sampleEnemy 15 3 54] }
    selectedChar := some (samplePlayer 20 50 0)
    prevSelectedCharIndex := none
    stepIsPossible := false
    attackIsPossible := false
    trace := []
    rnd := [] }

/-- The sample collaborators with a step predicate that accepts `undefined` as
a target, as a predicate without a check of its arguments might. -/
def lenientEnv : Env :=
  { sampleEnv with
    isStepPossible := fun a b radius => b.isNone || sampleReach a b radius }

/-! ## The pieces of the level progression -/

/-- The units that `nextLevel` repositions (lines 353-366): the roster after
`levelUp`, then the new player units. -/
def unitsToPlace (env : Env) (c : Controller) : List PositionedCharacter :=
  c.state.teams.map
      (fun prev => ({ prev with character := env.levelUp prev.character } : PositionedCharacter))
    ++ env.generateTeam true (c.state.currentLevel + 1 - 1)
        (if c.state.currentLevel + 1 > 3 then 2 else 1) none

/-- The units of `unitsToPlace` on their new cells (lines 367-373). -/
def placedUnits (env : Env) (c : Controller) : List PositionedCharacter :=
  (reposition (unitsToPlace env c) (env.generateCoordinates env.boardSize) c.rnd).1

/-- The new wave of the opposing side (lines 377-386). -/
def newWave (env : Env) (c : Controller) : List PositionedCharacter :=
  (env.generateTeam false (c.state.currentLevel + 1)
      ((placedUnits env c).filter (fun char => char.character.isPlayer)).length none).map
    (boostStats env)

/-! # Theorems -/

/-! ## Combat arithmetic -/

/-- The double `0.1`: its significand `2 * tenthNumerator` has 53 bits, and
among the multiples of `2 ^ (-56)` it is the one nearest to one tenth. -/
theorem tenthNumerator_nearest :
    2 ^ 52 ≤ 2 * tenthNumerator ∧ 2 * tenthNumerator < 2 ^ 53
      ∧ 10 * (2 * tenthNumerator) - 2 ^ 56 = 4 := by
  decide

theorem excessBits_le (fuel : Nat) : ∀ n k : Nat, n < 2 ^ (53 + k) → excessBits fuel n ≤ k := by
  induction fuel with
  | zero => intro n k _; simp [excessBits]
  | succ f ih =>
    intro n k h
    unfold excessBits
    split
    · omega
    · rename_i hn
      cases k with
      | zero => exact absurd h hn
      | succ k =>
        have h2 : n / 2 < 2 ^ (53 + k) := by
          have e : 2 ^ (53 + (k + 1)) = 2 * 2 ^ (53 + k) := by
            rw [← Nat.add_assoc, Nat.pow_succ, Nat.mul_comm]
          rw [e] at h
          omega
        have := ih (n / 2) k h2
        omega

theorem excessBits_of_lt (fuel n : Nat) (h : n < 2 ^ 53) : excessBits fuel n = 0 :=
  Nat.le_zero.mp (excessBits_le fuel n 0 h)

/-- The fuel `n` suffices: `excessBits n n` halvings bring `n` below `2 ^ 53`. -/
theorem excessBits_spec (fuel : Nat) :
    ∀ n : Nat, n ≤ fuel → n / 2 ^ excessBits fuel n < 2 ^ 53 := by
  induction fuel with
  | zero => intro n h; have : n = 0 := by omega
            subst this; simp [excessBits]
  | succ f ih =>
    intro n h
    unfold excessBits
    split
    · simpa using ‹n < 2 ^ 53›
    · rename_i hn
      have h2 : n / 2 ≤ f := by
        have : 2 ^ 53 ≤ n := Nat.le_of_not_lt hn
        have : (2 : Nat) ^ 53 = 9007199254740992 := by norm_num
        omega
      have := ih (n / 2) h2
      rwa [Nat.pow_succ, Nat.mul_comm, ← Nat.div_div_eq_div_mul]

/-- No halving more than needed: after a halving the quotient has 53 bits. -/
theorem excessBits_tight (fuel : Nat) :
    ∀ n : Nat, 0 < excessBits fuel n → 2 ^ 52 ≤ n / 2 ^ excessBits fuel n := by
  induction fuel with
  | zero => intro n h; simp [excessBits] at h
  | succ f ih =>
    intro n h
    unfold excessBits at h ⊢
    split
    · rename_i hn; rw [if_pos hn] at h; omega
    · rename_i hn
      have e2 : 2 ^ (excessBits f (n / 2) + 1) = 2 * 2 ^ excessBits f (n / 2) := by
        rw [Nat.pow_succ, Nat.mul_comm]
      rw [e2, ← Nat.div_div_eq_div_mul]
      by_cases h0 : 0 < excessBits f (n / 2)
      · exact ih _ h0
      · have e : excessBits f (n / 2) = 0 := by omega
        rw [e]
        have : 2 ^ 53 ≤ n := Nat.le_of_not_lt hn
        have : (2 : Nat) ^ 53 = 9007199254740992 := by norm_num
        have : (2 : Nat) ^ 52 = 4503599627370496 := by norm_num
        simp only [Nat.pow_zero, Nat.div_one]
        omega

theorem roundNat53_ge (n : Nat) : n / 2 ^ excessBits n n * 2 ^ excessBits n n ≤ roundNat53 n := by
  unfold roundNat53
  simp only
  split_ifs
  · exact le_refl _
  · exact le_refl _
  · exact Nat.mul_le_mul_right _ (Nat.le_succ _)
  · exact Nat.mul_le_mul_right _ (Nat.le_succ _)

theorem roundNat53_le (n : Nat) : 2 * roundNat53 n ≤ 2 * n + 2 ^ excessBits n n := by
  unfold roundNat53
  simp only
  have hdm := Nat.div_add_mod n (2 ^ excessBits n n)
  generalize 2 ^ excessBits n n = p at *
  generalize hq : n / p = q at *
  generalize hr : n % p = r at *
  have e1 : (q + 1) * p = q * p + p := by ring
  have e2 : p * q = q * p := by ring
  split_ifs <;> omega

theorem roundNat53_of_lt (n : Nat) (h : n < 2 ^ 53) : roundNat53 n = n := by
  unfold roundNat53
  simp [excessBits_of_lt n n h, Nat.mod_one]

theorem roundNat53_of_le (n : Nat) (h : n ≤ 2 ^ 53) : roundNat53 n = n := by
  rcases Nat.lt_or_ge n (2 ^ 53) with h1 | h1
  · exact roundNat53_of_lt n h1
  · have : n = 2 ^ 53 := le_antisymm h h1
    subst this
    decide

theorem excessBits_tenth (a k : Nat) (h : a * 3602879701896397 < 2 ^ (53 + k)) :
    excessBits (a * 3602879701896397) (a * 3602879701896397) ≤ k :=
  excessBits_le _ _ k h

/-- The rounded product is not below the nearest integer to `a / 10` less one
half, scaled by `2 ^ 55`. -/
theorem roundNat53_tenth_ge (a : Nat) (h : a < 2 ^ 53) :
    2 * ((a + 5) / 10) * 2 ^ 54 ≤ roundNat53 (a * 3602879701896397) + 2 ^ 54 := by
  have hs : excessBits (a * 3602879701896397) (a * 3602879701896397) ≤ 52 := by
    apply excessBits_tenth
    have : (2 : Nat) ^ 53 = 9007199254740992 := by norm_num
    have : (2 : Nat) ^ (53 + 52) = 40564819207303340847894502572032 := by norm_num
    omega
  have hge := roundNat53_ge (a * 3602879701896397)
  generalize excessBits (a * 3602879701896397) (a * 3602879701896397) = s at hs hge
  rcases Nat.eq_zero_or_pos ((a + 5) / 10) with hk | hk
  · rw [hk]; omega
  · have hT : (2 * ((a + 5) / 10) - 1) * 2 ^ 54 ≤ a * 3602879701896397 := by
      have : (2 : Nat) ^ 54 = 18014398509481984 := by norm_num
      rw [this]
      omega
    have hp : (2 : Nat) ^ 54 = 2 ^ (54 - s) * 2 ^ s := by
      rw [← Nat.pow_add]; congr 1; omega
    have hdiv : (2 * ((a + 5) / 10) - 1) * 2 ^ 54 / 2 ^ s * 2 ^ s
        = (2 * ((a + 5) / 10) - 1) * 2 ^ 54 := by
      rw [hp, ← Nat.mul_assoc, Nat.mul_div_cancel _ (Nat.pow_pos (by norm_num))]
    have hmono : (2 * ((a + 5) / 10) - 1) * 2 ^ 54 / 2 ^ s * 2 ^ s
        ≤ a * 3602879701896397 / 2 ^ s * 2 ^ s :=
      Nat.mul_le_mul_right _ (Nat.div_le_div_right hT)
    rw [hdiv] at hmono
    have hfin := le_trans hmono hge
    have e : 2 * ((a + 5) / 10) * 2 ^ 54 = (2 * ((a + 5) / 10) - 1) * 2 ^ 54 + 2 ^ 54 := by
      have : 2 * ((a + 5) / 10) = (2 * ((a + 5) / 10) - 1) + 1 := by omega
      nth_rewrite 1 [this]
      ring
    omega

/-- Below `3 * 2 ^ 51` the rounded product stays under the nearest integer to
`a / 10` plus one half, scaled by `2 ^ 55`. -/
theorem roundNat53_tenth_lt (a : Nat) (h : a < 6755399441055744) :
    roundNat53 (a * 3602879701896397) < (2 * ((a + 5) / 10) + 1) * 2 ^ 54 := by
  have hs : excessBits (a * 3602879701896397) (a * 3602879701896397) ≤ 52 := by
    apply excessBits_tenth
    have : (2 : Nat) ^ (53 + 52) = 40564819207303340847894502572032 := by norm_num
    omega
  have hle := roundNat53_le (a * 3602879701896397)
  generalize excessBits (a * 3602879701896397) (a * 3602879701896397) = s at hs hle
  have hp : (2 : Nat) ^ s ≤ 2 ^ 52 := Nat.pow_le_pow_right (by norm_num) hs
  have h52 : (2 : Nat) ^ 52 = 4503599627370496 := by norm_num
  have h54 : (2 : Nat) ^ 54 = 18014398509481984 := by norm_num
  rw [h54]
  omega

theorem roundInt53_natCast (n : Nat) : roundInt53 (n : Int) = (roundNat53 n : Int) := by
  unfold roundInt53
  rw [if_neg (not_lt.mpr (Int.ofNat_nonneg n)), Int.natAbs_ofNat]

theorem roundInt53_nonneg (z : Int) (h : 0 ≤ z) : 0 ≤ roundInt53 z := by
  unfold roundInt53
  rw [if_neg (not_lt.mpr h)]
  exact Int.ofNat_nonneg _

theorem roundInt53_nonpos (z : Int) (h : z < 0) : roundInt53 z ≤ 0 := by
  unfold roundInt53
  rw [if_pos h]
  exact neg_nonpos.mpr (Int.ofNat_nonneg _)

theorem roundInt53_of_le (z : Int) (h0 : 0 ≤ z) (h : z ≤ 2 ^ 53) : roundInt53 z = z := by
  lift z to ℕ using h0
  rw [roundInt53_natCast, roundNat53_of_le z (by exact_mod_cast h)]

theorem timesTenth_natCast (n : Nat) :
    timesTenth (n : Int) = (roundNat53 (n * 3602879701896397) : ℚ) / 2 ^ 55 := by
  unfold timesTenth tenthNumerator
  have e : ((n : Int) * 3602879701896397) = ((n * 3602879701896397 : ℕ) : Int) := by
    push_cast; rfl
  rw [e, roundInt53_natCast, Int.cast_natCast]

theorem timesTenth_nonneg (a : Int) (h : 0 ≤ a) : 0 ≤ timesTenth a := by
  lift a to ℕ using h
  rw [timesTenth_natCast]
  positivity

theorem floor_timesTenth_ge (a : Int) (h0 : 0 ≤ a) (h : a < 2 ^ 53) :
    (a + 5) / 10 ≤ ⌊timesTenth a + 1 / 2⌋ := by
  lift a to ℕ using h0
  have hb := roundNat53_tenth_ge a (by omega)
  have hbI : 2 * (((a : Int) + 5) / 10) * 2 ^ 54
      ≤ (roundNat53 (a * 3602879701896397) : Int) + 2 ^ 54 := by exact_mod_cast hb
  rw [timesTenth_natCast, Int.le_floor]
  generalize ((a : Int) + 5) / 10 = k at hbI ⊢
  generalize roundNat53 (a * 3602879701896397) = r at hbI ⊢
  have hq : ((2 * k * 2 ^ 54 : Int) : ℚ) ≤ (((r : Int) + 2 ^ 54 : Int) : ℚ) :=
    Int.cast_le.mpr hbI
  push_cast at hq
  rw [div_add_div _ _ (by norm_num) (by norm_num), le_div_iff₀ (by norm_num)]
  norm_num at hq ⊢
  linarith

theorem floor_timesTenth (a : Int) (h0 : 0 ≤ a) (h : a < 6755399441055744) :
    ⌊timesTenth a + 1 / 2⌋ = (a + 5) / 10 := by
  apply le_antisymm
  · lift a to ℕ using h0
    have hb := roundNat53_tenth_lt a (by omega)
    have hbI : (roundNat53 (a * 3602879701896397) : Int)
        < (2 * (((a : Int) + 5) / 10) + 1) * 2 ^ 54 := by exact_mod_cast hb
    rw [timesTenth_natCast, ← Int.lt_add_one_iff, Int.floor_lt]
    generalize ((a : Int) + 5) / 10 = k at hbI ⊢
    generalize roundNat53 (a * 3602879701896397) = r at hbI ⊢
    have hq : (((r : Int) : Int) : ℚ) < (((2 * k + 1) * 2 ^ 54 : Int) : ℚ) :=
      Int.cast_lt.mpr hbI
    push_cast at hq ⊢
    rw [div_add_div _ _ (by norm_num) (by norm_num), div_lt_iff₀ (by norm_num)]
    norm_num at hq ⊢
    linarith
  · exact floor_timesTenth_ge a h0 (lt_trans h (by norm_num))

theorem floor_half : ⌊(1 / 2 : ℚ)⌋ = 0 := by
  rw [Int.floor_eq_iff]; norm_num

theorem floor_intCast_add_half (m : Int) : ⌊(m : ℚ) + 1 / 2⌋ = m := by
  rw [Int.floor_int_add, floor_half]; simp

theorem floor_max_add_half (x y : ℚ) :
    ⌊max x y + 1 / 2⌋ = max ⌊x + 1 / 2⌋ ⌊y + 1 / 2⌋ := by
  have hm : Monotone (fun t : ℚ => ⌊t + 1 / 2⌋) := fun s t hst =>
    Int.floor_mono (by linarith)
  exact hm.map_max

theorem floor_tenth_add_half (a : Int) : ⌊(a : ℚ) * (1 / 10) + 1 / 2⌋ = (a + 5) / 10 := by
  have h : (a : ℚ) * (1 / 10) + 1 / 2 = ((a + 5 : ℤ) : ℚ) / ((10 : ℕ) : ℚ) := by
    push_cast; ring
  rw [h, Rat.floor_intCast_div_natCast]
  rfl

/-- For a non-negative attack the damage is the larger of the two doubles,
each rounded to the nearest integer. -/
theorem attackPoints_floor (attacker enemy : PositionedCharacter)
    (h0 : 0 ≤ attacker.character.attack) :
    attackPoints attacker enemy
      = max ⌊minusDouble attacker.character.attack enemy.character.defence + 1 / 2⌋
          ⌊timesTenth attacker.character.attack + 1 / 2⌋ := by
  unfold attackPoints toFixed
  have hmax : ¬ max (minusDouble attacker.character.attack enemy.character.defence)
      (timesTenth attacker.character.attack) < 0 := by
    rw [not_lt]
    exact le_trans (timesTenth_nonneg _ h0) (le_max_right _ _)
  rw [if_neg hmax, floor_max_add_half]

theorem floor_minusDouble (a d : Int) (h : a - d ≤ 2 ^ 53) :
    ⌊minusDouble a d + 1 / 2⌋ = a - d ∨ (a - d < 0 ∧ ⌊minusDouble a d + 1 / 2⌋ ≤ 0) := by
  unfold minusDouble
  rw [floor_intCast_add_half]
  rcases lt_or_le (a - d) 0 with hneg | hpos
  · exact Or.inr ⟨hneg, roundInt53_nonpos _ hneg⟩
  · exact Or.inl (roundInt53_of_le _ hpos h)

/-- The damage as integer arithmetic, for an attack below `3 * 2 ^ 51` and a
difference that a double holds. -/
theorem attackPoints_eq (attacker enemy : PositionedCharacter)
    (h0 : 0 ≤ attacker.character.attack)
    (h : attacker.character.attack < 6755399441055744)
    (hd : attacker.character.attack - enemy.character.defence ≤ 2 ^ 53) :
    attackPoints attacker enemy
      = max (attacker.character.attack - enemy.character.defence)
          ((attacker.character.attack + 5) / 10) := by
  rw [attackPoints_floor attacker enemy h0, floor_timesTenth _ h0 h]
  rcases floor_minusDouble _ _ hd with e | ⟨hneg, hle⟩
  · rw [e]
  · have hk : 0 ≤ (attacker.character.attack + 5) / 10 := by omega
    rw [max_eq_right (le_trans hle hk), max_eq_right (by omega)]

/-- The formula of the specification over exact arithmetic, as integers. -/
theorem floor_exact_max (a d : Int) :
    ⌊max ((a : ℚ) - (d : ℚ)) ((a : ℚ) / 10) + 1 / 2⌋ = max (a - d) ((a + 5) / 10) := by
  have e : (a : ℚ) - (d : ℚ) = ((a - d : ℤ) : ℚ) := by push_cast; ring
  rw [floor_max_add_half, e, floor_intCast_add_half, div_eq_mul_one_div, floor_tenth_add_half]

/-- The bound `3 * 2 ^ 51` of `attackPoints_eq` is the best one: at that attack
the double product is `675539944105574.5` and the damage is one more than
`(a + 5) / 10`. -/
theorem attackPoints_first_excess :
    attackPoints (samplePlayer 6755399441055744 50 0) (sampleEnemy 6755399441055744 10 1)
        = 675539944105575
      ∧ ((6755399441055744 : Int) + 5) / 10 = 675539944105574 := by
  refine ⟨by decide!, by decide⟩

/-! ## Damage -/

/-- C1, as the code has it: for an attacker with attack `0 ≤ a < 3 * 2 ^ 51`
(6755399441055744) and a defender with defence `d` such that `a - d ≤ 2 ^ 53`,
which every `d ≥ 0` satisfies, `attackPoints` in double arithmetic is
`max (a - d) (a / 10)` rounded to the nearest integer, halves up, over exact
arithmetic; this is the integer `max (a - d) ((a + 5) / 10)`, and it is the
amount `attackTheEnemy` hands to `showDamage`. -/
theorem attackPoints_rounds_max (attacker enemy : PositionedCharacter)
    (ha : 0 ≤ attacker.character.attack)
    (hb : attacker.character.attack < 6755399441055744)
    (hd : attacker.character.attack - enemy.character.defence ≤ 2 ^ 53) :
    attackPoints attacker enemy
        = ⌊max ((attacker.character.attack : ℚ) - (enemy.character.defence : ℚ))
            ((attacker.character.attack : ℚ) / 10) + 1 / 2⌋
      ∧ attackPoints attacker enemy
        = max (attacker.character.attack - enemy.character.defence)
            ((attacker.character.attack + 5) / 10)
      ∧ ∀ c : Controller, (attackTheEnemy c (some attacker) (some enemy)).trace
        = c.trace ++ [Event.unsubscribe, Event.showDamage enemy.position
            ⌊max ((attacker.character.attack : ℚ) - (enemy.character.defence : ℚ))
              ((attacker.character.attack : ℚ) / 10) + 1 / 2⌋] := by
  have h2 := attackPoints_eq attacker enemy ha hb hd
  have h1 : attackPoints attacker enemy
      = ⌊max ((attacker.character.attack : ℚ) - (enemy.character.defence : ℚ))
          ((attacker.character.attack : ℚ) / 10) + 1 / 2⌋ :=
    h2.trans (floor_exact_max _ _).symm
  refine ⟨h1, h2, ?_⟩
  intro c
  rw [← h1]
  unfold attackTheEnemy
  simp only [Controller.log, Controller.setTeams]
  split <;> simp

/-- Scenarios A and B of the specification: attack 20 against defence 15 deals
5, attack 10 against defence 50 deals 1. -/
theorem attackPoints_rounds_max_witness :
    attackPoints (samplePlayer 20 50 0) (sampleEnemy 15 10 1) = 5
      ∧ attackPoints (samplePlayer 10 50 0) (sampleEnemy 50 10 1) = 1 :=
  ⟨(attackPoints_rounds_max (samplePlayer 20 50 0) (sampleEnemy 15 10 1) (by decide)
      (by decide) (by decide)).2.1.trans (by decide),
   (attackPoints_rounds_max (samplePlayer 10 50 0) (sampleEnemy 50 10 1) (by decide)
      (by decide) (by decide)).2.1.trans (by decide)⟩

/-- C1 as stated fails: with attack and defence both 7000000000000004 the exact
`max (0) (700000000000000.4)` rounds to 700000000000000, while the double
product `a * 0.1` is `700000000000000.5` and the code deals 700000000000001. -/
theorem attackPoints_exceeds_exact_rounding :
    attackPoints (samplePlayer 7000000000000004 50 0) (sampleEnemy 7000000000000004 10 1)
        = 700000000000001
      ∧ timesTenth 7000000000000004 = 700000000000000 + 1 / 2
      ∧ ⌊max ((((samplePlayer 7000000000000004 50 0).character.attack : ℤ) : ℚ)
              - (((sampleEnemy 7000000000000004 10 1).character.defence : ℤ) : ℚ))
            ((((samplePlayer 7000000000000004 50 0).character.attack : ℤ) : ℚ) / 10)
          + 1 / 2⌋ = 700000000000000
      ∧ attackPoints (samplePlayer 7000000000000004 50 0)
            (sampleEnemy 7000000000000004 10 1)
          ≠ ⌊max ((((samplePlayer 7000000000000004 50 0).character.attack : ℤ) : ℚ)
                - (((sampleEnemy 7000000000000004 10 1).character.defence : ℤ) : ℚ))
              ((((samplePlayer 7000000000000004 50 0).character.attack : ℤ) : ℚ) / 10)
            + 1 / 2⌋ := by
  have h1 : attackPoints (samplePlayer 7000000000000004 50 0)
      (sampleEnemy 7000000000000004 10 1) = 700000000000001 := by decide!
  have h2 : timesTenth 7000000000000004 = 700000000000000 + 1 / 2 := by decide!
  have h3 : ⌊max ((((samplePlayer 7000000000000004 50 0).character.attack : ℤ) : ℚ)
              - (((sampleEnemy 7000000000000004 10 1).character.defence : ℤ) : ℚ))
            ((((samplePlayer 7000000000000004 50 0).character.attack : ℤ) : ℚ) / 10)
          + 1 / 2⌋ = 700000000000000 := by
    rw [floor_exact_max]; decide
  refine ⟨h1, h2, h3, ?_⟩
  rw [h1, h3]
  decide

/-- C9, as the code has it: for an attacker with attack `0 ≤ a < 2 ^ 53` the
damage in double arithmetic is at least the exact `a / 10` rounded to the
nearest integer (halves up), hence at least `⌊a / 10⌋`; it reaches `⌈a / 10⌉`
whenever the fractional part of `a / 10` is zero or at least one half. -/
theorem attackPoints_at_least_rounded_tenth (attacker enemy : PositionedCharacter)
    (ha : 0 ≤ attacker.character.attack)
    (hb : attacker.character.attack < 2 ^ 53) :
    ⌊(attacker.character.attack : ℚ) * (1 / 10) + 1 / 2⌋ ≤ attackPoints attacker enemy
      ∧ ⌊(attacker.character.attack : ℚ) * (1 / 10)⌋ ≤ attackPoints attacker enemy
      ∧ ((attacker.character.attack % 10 = 0 ∨ 5 ≤ attacker.character.attack % 10) →
          ⌈(attacker.character.attack : ℚ) * (1 / 10)⌉ ≤ attackPoints attacker enemy) := by
  have hfloor : ⌊(attacker.character.attack : ℚ) * (1 / 10)⌋ = attacker.character.attack / 10 := by
    have h : (attacker.character.attack : ℚ) * (1 / 10)
        = ((attacker.character.attack : ℤ) : ℚ) / ((10 : ℕ) : ℚ) := by push_cast; ring
    rw [h, Rat.floor_intCast_div_natCast]; rfl
  have hceil : ⌈(attacker.character.attack : ℚ) * (1 / 10)⌉
      = -((-attacker.character.attack) / 10) := by
    have h : -((attacker.character.attack : ℚ) * (1 / 10))
        = ((-attacker.character.attack : ℤ) : ℚ) / ((10 : ℕ) : ℚ) := by push_cast; ring
    have hc : ⌈(attacker.character.attack : ℚ) * (1 / 10)⌉
        = -⌊-((attacker.character.attack : ℚ) * (1 / 10))⌋ := by rw [Int.floor_neg, neg_neg]
    rw [hc, h, Rat.floor_intCast_div_natCast]; rfl
  have hk : (attacker.character.attack + 5) / 10 ≤ attackPoints attacker enemy := by
    rw [attackPoints_floor attacker enemy ha]
    exact le_trans (floor_timesTenth_ge _ ha hb) (le_max_right _ _)
  rw [floor_tenth_add_half, hfloor, hceil]
  refine ⟨hk, by omega, ?_⟩
  intro h
  omega

/-- Attack 25 against defence 50: the damage 3 is `⌈2.5⌉`. -/
theorem attackPoints_at_least_rounded_tenth_witness :
    ⌈(((samplePlayer 25 50 0).character.attack : ℤ) : ℚ) * (1 / 10)⌉
      ≤ attackPoints (samplePlayer 25 50 0) (sampleEnemy 50 10 1) :=
  (attackPoints_at_least_rounded_tenth (samplePlayer 25 50 0) (sampleEnemy 50 10 1)
    (by decide) (by decide)).2.2 (Or.inr (by decide))

/-- C9 as stated fails: attack 11 against defence 50 deals 1, while
`⌈11 × 0.1⌉ = 2`. -/
theorem attackPoints_below_ceil :
    attackPoints (samplePlayer 11 50 0) (sampleEnemy 50 10 1) = 1
      ∧ ⌈(((samplePlayer 11 50 0).character.attack : ℤ) : ℚ) * (1 / 10)⌉ = 2
      ∧ ¬ (⌈(((samplePlayer 11 50 0).character.attack : ℤ) : ℚ) * (1 / 10)⌉
            ≤ attackPoints (samplePlayer 11 50 0) (sampleEnemy 50 10 1)) := by
  have h1 : attackPoints (samplePlayer 11 50 0) (sampleEnemy 50 10 1) = 1 := by
    rw [attackPoints_eq _ _ (by decide) (by decide) (by decide)]; decide
  have h2 : ⌈(((samplePlayer 11 50 0).character.attack : ℤ) : ℚ) * (1 / 10)⌉ = 2 := by
    rw [Int.ceil_eq_iff]
    simp only [samplePlayer]
    norm_num
  refine ⟨h1, h2, ?_⟩
  rw [h1, h2]
  decide

/-! ## Rosters with distinct positions -/

theorem filter_position_of_not_mem (l : List PositionedCharacter) (p : Option Int)
    (h : p ∉ l.map (fun char => char.position)) :
    l.filter (fun char => char.position != p) = l := by
  rw [List.filter_eq_self]
  intro u hu
  have : u.position ≠ p := fun e => h (e ▸ List.mem_map_of_mem _ hu)
  simpa using this

theorem filter_position_eq_erase (l : List PositionedCharacter) (u : PositionedCharacter)
    (hd : DistinctPositions l) (hu : u ∈ l) :
    l.filter (fun char => char.position != u.position) = l.erase u := by
  induction l with
  | nil => cases hu
  | cons x xs ih =>
    unfold DistinctPositions at hd
    rw [List.map_cons, List.nodup_cons] at hd
    by_cases hx : x = u
    · subst hx
      rw [List.erase_cons_head, List.filter_cons_of_neg (by simp)]
      exact filter_position_of_not_mem xs x.position hd.1
    · have hmem : u ∈ xs := by
        rcases List.mem_cons.mp hu with h | h
        · exact absurd h.symm hx
        · exact h
      have hpos : x.position ≠ u.position := by
        intro e
        exact hd.1 (e ▸ List.mem_map_of_mem _ hmem)
      rw [List.erase_cons_tail (by simpa using hx), List.filter_cons_of_pos (by simpa using hpos)]
      rw [ih hd.2 hmem]

theorem position_not_mem_filter (l : List PositionedCharacter) (p : Option Int) :
    p ∉ (l.filter (fun char => char.position != p)).map (fun char => char.position) := by
  intro h
  rcases List.mem_map.mp h with ⟨u, hu, e⟩
  have := (List.mem_filter.mp hu).2
  simp [e] at this

theorem distinct_filter (l : List PositionedCharacter) (f : PositionedCharacter → Bool)
    (hd : DistinctPositions l) : DistinctPositions (l.filter f) := by
  unfold DistinctPositions at *
  exact hd.sublist ((List.filter_sublist l).map _)

/-- Dropping what stands on one cell and appending a unit that stands on a cell
nobody else occupies keeps positions distinct. -/
theorem distinct_filter_append (l : List PositionedCharacter) (p : Option Int)
    (u : PositionedCharacter) (hd : DistinctPositions l)
    (hfree : ∀ v ∈ l, v.position ≠ p → v.position ≠ u.position) :
    DistinctPositions (l.filter (fun char => char.position != p) ++ [u]) := by
  have hf := distinct_filter l (fun char => char.position != p) hd
  unfold DistinctPositions at *
  rw [List.map_append, List.nodup_append]
  refine ⟨hf, by simp, ?_⟩
  intro q hq hq'
  simp only [List.map_cons, List.map_nil, List.mem_singleton] at hq'
  subst hq'
  rcases List.mem_map.mp hq with ⟨v, hv, e⟩
  have hv' := List.mem_filter.mp hv
  exact hfree v hv'.1 (by simpa using hv'.2) e

/-! ## Attack and move on the roster -/

theorem attackTheEnemy_teams (c : Controller) (attacker defender : PositionedCharacter) :
    (attackTheEnemy c (some attacker) (some defender)).state.teams
      = c.state.teams.filter (fun char => char.position != defender.position)
        ++ (if 0 < max (defender.character.health - attackPoints attacker defender) 0
            then [{ defender with character :=
                      defender.character.damage (attackPoints attacker defender) }]
            else []) := by
  unfold attackTheEnemy
  simp only [Controller.log, Controller.setTeams, filterCharacter, Character.damage, gt_iff_lt]
  split <;> simp

/-- C2: in a roster with distinct positions that holds the defender,
`attackTheEnemy` (up to `showDamage`, before the end of the turn) leaves the
roster without the defender, followed by the defender with health
`max (health - damage) 0` on its old cell when that health is positive.  So a
unit stands on the defender's cell afterwards iff the remaining health is
positive, that unit is the damaged defender, and every other entry is kept as
it was. -/
theorem attackTheEnemy_roster (c : Controller) (attacker defender : PositionedCharacter)
    (hd : DistinctPositions c.state.teams) (hdef : defender ∈ c.state.teams) :
    (attackTheEnemy c (some attacker) (some defender)).state.teams
        = c.state.teams.erase defender
          ++ (if 0 < max (defender.character.health - attackPoints attacker defender) 0
              then [{ defender with character := { defender.character with
                        health := max (defender.character.health
                          - attackPoints attacker defender) 0 } }]
              else [])
      ∧ ((∃ u ∈ (attackTheEnemy c (some attacker) (some defender)).state.teams,
            u.position = defender.position)
          ↔ 0 < max (defender.character.health - attackPoints attacker defender) 0)
      ∧ (∀ u ∈ (attackTheEnemy c (some attacker) (some defender)).state.teams,
            u.position = defender.position →
              u = { defender with character := { defender.character with
                      health := max (defender.character.health
                        - attackPoints attacker defender) 0 } })
      ∧ (∀ u ∈ c.state.teams, u ≠ defender →
            u ∈ (attackTheEnemy c (some attacker) (some defender)).state.teams)
      ∧ (∀ u ∈ (attackTheEnemy c (some attacker) (some defender)).state.teams,
            u.position ≠ defender.position → u ∈ c.state.teams) := by
  have hfilter := position_not_mem_filter c.state.teams defender.position
  have hmemf : ∀ u, u ∈ c.state.teams.filter (fun char => char.position != defender.position)
      ↔ u ∈ c.state.teams ∧ u.position ≠ defender.position := by
    intro u
    rw [List.mem_filter]
    simp
  have hpos : ∀ u ∈ c.state.teams, u ≠ defender → u.position ≠ defender.position := by
    intro u hu hne e
    have := (filter_position_eq_erase c.state.teams defender hd hdef)
    have hu' : u ∈ c.state.teams.erase defender := (List.mem_erase_of_ne hne).mpr hu
    rw [← this] at hu'
    exact ((hmemf u).mp hu').2 e
  rw [attackTheEnemy_teams]
  refine ⟨?_, ?_, ?_, ?_, ?_⟩
  · rw [filter_position_eq_erase c.state.teams defender hd hdef]
    rfl
  · constructor
    · rintro ⟨u, hu, e⟩
      rcases List.mem_append.mp hu with h | h
      · exact absurd e ((hmemf u).mp h).2
      · by_contra hn
        rw [if_neg hn] at h
        cases h
    · intro h
      rw [if_pos h]
      exact ⟨_, List.mem_append_right _ (List.mem_singleton.mpr rfl), rfl⟩
  · intro u hu e
    rcases List.mem_append.mp hu with h | h
    · exact absurd e ((hmemf u).mp h).2
    · split at h
      · exact List.mem_singleton.mp h
      · cases h
  · intro u hu hne
    exact List.mem_append_left _ ((hmemf u).mpr ⟨hu, hpos u hu hne⟩)
  · intro u hu hne
    rcases List.mem_append.mp hu with h | h
    · exact ((hmemf u).mp h).1
    · split at h
      · rw [List.mem_singleton.mp h] at hne
        exact absurd rfl hne
      · cases h

/-- The defender of scenario C has health 3 and takes 5: it leaves the roster,
the attacker stays. -/
theorem attackTheEnemy_roster_witness :
    (attackTheEnemy
        (sampleController [samplePlayer 20 50 0, sampleEnemy 15 3 1] none)
        (some (samplePlayer 20 50 0)) (some (sampleEnemy 15 3 1))).state.teams
      = [samplePlayer 20 50 0] :=
  (attackTheEnemy_roster (sampleController [samplePlayer 20 50 0, sampleEnemy 15 3 1] none)
    (samplePlayer 20 50 0) (sampleEnemy 15 3 1) (by decide) (by decide)).1.trans
    (by rw [attackPoints_eq _ _ (by decide) (by decide) (by decide)]; decide)

theorem relocate_teams (c : Controller) (unit : PositionedCharacter) (cell : Option Int) :
    (relocate c unit cell).state.teams
      = c.state.teams.filter (fun char => char.position != unit.position)
        ++ [{ unit with position := cell }] := rfl

/-- C3: in a roster with distinct positions, moving a unit of the roster to a
cell on which nothing stands (the roster update of `onCellClick`, lines 97-101,
before the end of the turn) yields the old roster with that unit taken out and
put back, position changed to the target and stats untouched; every other
entry is the same entry, and the multiset of characters is the same. -/
theorem relocate_moves_only_selected (c : Controller) (selected : PositionedCharacter)
    (index : Int) (hd : DistinctPositions c.state.teams) (hs : selected ∈ c.state.teams)
    (hfree : ∀ u ∈ c.state.teams, u.position ≠ some index) :
    (relocate c selected (some index)).state.teams
        = c.state.teams.erase selected ++ [{ selected with position := some index }]
      ∧ (∀ u, u ∈ (relocate c selected (some index)).state.teams ↔
            u = { selected with position := some index } ∨ (u ∈ c.state.teams ∧ u ≠ selected))
      ∧ ((relocate c selected (some index)).state.teams.map (fun char => char.character)).Perm
          (c.state.teams.map (fun char => char.character))
      ∧ (relocate c selected (some index)).state.teams.length = c.state.teams.length
      ∧ (∀ u ∈ (relocate c selected (some index)).state.teams,
            u.position = some index → u = { selected with position := some index })
      ∧ (∀ env : Env, c.selectedChar = some selected → c.stepIsPossible = true →
            onCellClick env c index
              = (endOfTurn env (relocate c selected (some index))).andThen
                  (fun c' => onCellClickRest c' index false none)) := by
  have hteams : (relocate c selected (some index)).state.teams
      = c.state.teams.erase selected ++ [{ selected with position := some index }] := by
    rw [relocate_teams, filter_position_eq_erase c.state.teams selected hd hs]
  have hnodup : c.state.teams.Nodup := List.Nodup.of_map _ hd
  have hperm : (selected :: c.state.teams.erase selected).Perm c.state.teams :=
    (List.perm_cons_erase hs).symm
  refine ⟨hteams, ?_, ?_, ?_, ?_, ?_⟩
  · intro u
    rw [hteams, List.mem_append, List.mem_singleton, hnodup.mem_erase_iff]
    constructor
    · rintro (⟨hne, hu⟩ | h)
      · exact Or.inr ⟨hu, hne⟩
      · exact Or.inl h
    · rintro (h | ⟨hu, hne⟩)
      · exact Or.inr h
      · exact Or.inl ⟨hne, hu⟩
  · rw [hteams]
    have h1 : (c.state.teams.erase selected ++ [{ selected with position := some index }]).Perm
        (({ selected with position := some index } : PositionedCharacter)
          :: c.state.teams.erase selected) :=
      List.perm_append_comm
    refine (h1.map _).trans ?_
    rw [List.map_cons]
    exact hperm.map (fun char => char.character)
  · rw [hteams, List.length_append, List.length_erase_of_mem hs]
    have : 0 < c.state.teams.length := List.length_pos_of_mem hs
    simp only [List.length_singleton]
    omega
  · intro u hu e
    rw [hteams, List.mem_append, List.mem_singleton] at hu
    rcases hu with h | h
    · exact absurd e (hfree u (List.mem_of_mem_erase h))
    · exact h
  · intro env hsel hflag
    have hempty : haveACharacter c index = false := by
      unfold haveACharacter
      rw [List.any_eq_false]
      intro u hu
      simpa using hfree u hu
    have hnone : findCurrentChar c index = none := by
      unfold findCurrentChar
      rw [List.find?_eq_none]
      intro u hu
      simpa using hfree u hu
    unfold onCellClick
    simp only [hempty, hnone, hsel, hflag]
    rfl

/-- A unit on cell 0 moves to the empty cell 9; the unit on cell 1 stays. -/
theorem relocate_moves_only_selected_witness :
    (relocate (sampleController [samplePlayer 20 50 0, sampleEnemy 15 3 1]
        (some (samplePlayer 20 50 0))) (samplePlayer 20 50 0) (some 9)).state.teams
      = [sampleEnemy 15 3 1, samplePlayer 20 50 9] :=
  (relocate_moves_only_selected
    (sampleController [samplePlayer 20 50 0, sampleEnemy 15 3 1] (some (samplePlayer 20 50 0)))
    (samplePlayer 20 50 0) 9 (by decide) (by decide) (by decide)).1.trans (by decide)

/-! ## The destination search of the opposing side -/

theorem random_lt (n : Nat) (rnd : List Nat) (hn : 0 < n) : (random n rnd).1 < n := by
  unfold random
  cases rnd with
  | nil => exact hn
  | cons r rest =>
    simp only [randomIndex]
    rw [if_neg (by omega)]
    exact Nat.mod_lt _ hn

/-- A cell found by `indexStep` is `undefined` or one of the candidates. -/
theorem indexStep_found (env : Env) (npc : PositionedCharacter) :
    ∀ (fuel : Nat) (cells : List Int) (rnd : List Nat) (cell : Option Int) (rnd' : List Nat),
      indexStep env npc fuel cells rnd = .found cell rnd' →
        cell = none ∨ ∃ x ∈ cells, cell = some x := by
  intro fuel
  induction fuel with
  | zero => intro cells rnd cell rnd' h; simp [indexStep] at h
  | succ n ih =>
    intro cells rnd cell rnd' h
    unfold indexStep at h
    simp only at h
    split at h
    · split at h
      · cases h
      · rcases ih _ _ _ _ h with h' | ⟨x, hx, e⟩
        · exact Or.inl h'
        · exact Or.inr ⟨x, (List.eraseIdx_sublist _ _).subset hx, e⟩
    · injection h with h1 h2
      subst h1
      cases hget : cells[(random cells.length rnd).1]? with
      | none => exact Or.inl rfl
      | some x => exact Or.inr ⟨x, List.getElem?_mem hget, rfl⟩

/-- Nothing stands on a cell of `arrayOfCell`. -/
theorem arrayOfCell_free (env : Env) (c : Controller) (x : Int) (hx : x ∈ arrayOfCell env c) :
    ∀ u ∈ c.state.teams, u.position ≠ some x := by
  intro u hu e
  unfold arrayOfCell at hx
  have h := (List.mem_filter.mp hx).2
  simp only [Bool.not_eq_true', List.contains_eq_any_beq, List.any_eq_false, List.mem_map,
    forall_exists_index, and_imp, forall_apply_eq_imp_iff₂] at h
  have := h u hu
  simp [e] at this

/-! ## Distinct positions -/

theorem relocate_distinct (c : Controller) (unit : PositionedCharacter) (cell : Option Int)
    (hd : DistinctPositions c.state.teams) (hfree : ∀ u ∈ c.state.teams, u.position ≠ cell) :
    DistinctPositions (relocate c unit cell).state.teams := by
  rw [relocate_teams]
  exact distinct_filter_append _ _ _ hd (fun v hv _ => hfree v hv)

theorem attackTheEnemy_distinct (c : Controller) (attacker defender : Option PositionedCharacter)
    (hd : DistinctPositions c.state.teams) :
    DistinctPositions (attackTheEnemy c attacker defender).state.teams := by
  cases attacker with
  | none => simpa [attackTheEnemy, Controller.log] using hd
  | some a =>
    cases defender with
    | none => simpa [attackTheEnemy, Controller.log] using hd
    | some d =>
      rw [attackTheEnemy_teams]
      split
      · exact distinct_filter_append _ _ _ hd (fun v _ hne => hne)
      · rw [List.append_nil]
        exact distinct_filter _ _ hd

/-- C5: when no two roster entries share a position, none do after
(1) the player move of `onCellClick` to a cell on which nothing stands,
(2) the roster update of `attackTheEnemy`, whoever attacks whom, and
(3) the move that `stepAI` applies to the cell its search `indexStep` found
among `arrayOfCell`, every unit standing on a cell beforehand. -/
theorem positions_stay_distinct (env : Env) (c : Controller)
    (hd : DistinctPositions c.state.teams) :
    (∀ (selected : PositionedCharacter) (index : Int),
        (∀ u ∈ c.state.teams, u.position ≠ some index) →
          DistinctPositions (relocate c selected (some index)).state.teams)
      ∧ (∀ attacker defender : Option PositionedCharacter,
          DistinctPositions (attackTheEnemy c attacker defender).state.teams)
      ∧ (AllPlaced c.state.teams →
          ∀ (npc : PositionedCharacter) (rnd rnd' : List Nat) (cell : Option Int),
            indexStep env npc ((arrayOfCell env c).length + 1) (arrayOfCell env c) rnd
                = .found cell rnd' →
              DistinctPositions (relocate c npc cell).state.teams) := by
  refine ⟨?_, ?_, ?_⟩
  · intro selected index hfree
    exact relocate_distinct c selected (some index) hd hfree
  · intro attacker defender
    exact attackTheEnemy_distinct c attacker defender hd
  · intro hplaced npc rnd rnd' cell hfound
    apply relocate_distinct c npc cell hd
    rcases indexStep_found env npc _ _ _ _ _ hfound with h | ⟨x, hx, e⟩
    · subst h
      intro u hu e
      have := hplaced u hu
      rw [e] at this
      cases this
    · subst e
      exact arrayOfCell_free env c x hx

/-! ## Level progression -/

theorem foldl_health (l : List PositionedCharacter) (acc : Int) :
    l.foldl (fun acc prev => acc + prev.character.health) acc
      = acc + (l.map (fun char => char.character.health)).sum := by
  induction l generalizing acc with
  | nil => simp
  | cons x xs ih => simp [List.foldl_cons, ih, add_assoc]

theorem playerHealth_eq_sum (c : Controller) :
    playerHealth c
      = ((c.state.teams.filter (fun char => char.character.isPlayer)).map
          (fun char => char.character.health)).sum := by
  unfold playerHealth getPlayerTeam
  rw [foldl_health, zero_add]

theorem nextLevel_of_last (env : Env) (c : Controller) (h : 4 < c.state.currentLevel + 1) :
    nextLevel env c
      = endGame { ((c.log .nextLevel).log .unsubscribe) with
          state := { c.state with currentLevel := c.state.currentLevel + 1 } } := by
  unfold nextLevel
  simp only [Controller.log, gt_iff_lt]
  rw [if_pos h]

/-- C7: `nextLevel` raises `numberOfPoints` by the sum of the health of the
player units that are in the roster when it is called, on the way to a new
level and on the way out of the last one, whatever the level. -/
theorem nextLevel_adds_player_health (env : Env) (c : Controller) :
    (nextLevel env c).state.numberOfPoints
      = c.state.numberOfPoints
        + ((c.state.teams.filter (fun char => char.character.isPlayer)).map
            (fun char => char.character.health)).sum := by
  rw [← playerHealth_eq_sum]
  unfold nextLevel
  simp only [Controller.log, Controller.setTeams, gt_iff_lt]
  split
  · simp [endGame, renderScore, Controller.log, playerHealth, getPlayerTeam]
  · simp [renderScore, Controller.log, playerHealth, getPlayerTeam]

/-- C8: from a level between 1 and 4 `nextLevel` stores `min (level + 1) 4`,
again between 1 and 4; from level 4 it ends the match (`endGame`, the message
of victory, no listener is put back) and the roster is the one it found. -/
theorem nextLevel_level_capped (env : Env) (c : Controller)
    (h1 : 1 ≤ c.state.currentLevel) (h4 : c.state.currentLevel ≤ 4) :
    (nextLevel env c).state.currentLevel = min (c.state.currentLevel + 1) 4
      ∧ 1 ≤ (nextLevel env c).state.currentLevel
      ∧ (nextLevel env c).state.currentLevel ≤ 4
      ∧ (c.state.currentLevel = 4 →
          (nextLevel env c).state.teams = c.state.teams
            ∧ (nextLevel env c).trace
                = c.trace ++ [Event.nextLevel, Event.unsubscribe, Event.endGame,
                    Event.showMessage Message.youWon, Event.unsubscribeAllMouseListeners]) := by
  have hlevel : (nextLevel env c).state.currentLevel = min (c.state.currentLevel + 1) 4 := by
    by_cases h : 4 < c.state.currentLevel + 1
    · rw [nextLevel_of_last env c h]
      simp only [endGame, renderScore, Controller.log]
      omega
    · unfold nextLevel
      simp only [Controller.log, Controller.setTeams, gt_iff_lt]
      rw [if_neg h]
      simp only [renderScore]
      omega
  refine ⟨hlevel, ?_, ?_, ?_⟩
  · rw [hlevel]; omega
  · rw [hlevel]; omega
  · intro h
    rw [nextLevel_of_last env c (by omega)]
    simp [endGame, renderScore, Controller.log]

/-! ## Clicks -/

theorem findCurrentChar_position (c : Controller) (index : Int) (cur : PositionedCharacter)
    (h : findCurrentChar c index = some cur) : cur.position = some index := by
  unfold findCurrentChar at h
  have := List.find?_some h
  simpa using this

theorem findCurrentChar_mem (c : Controller) (index : Int) (cur : PositionedCharacter)
    (h : findCurrentChar c index = some cur) : cur ∈ c.state.teams := by
  unfold findCurrentChar at h
  exact List.mem_of_find?_eq_some h

theorem haveACharacter_of_find (c : Controller) (index : Int) (cur : PositionedCharacter)
    (h : findCurrentChar c index = some cur) : haveACharacter c index = true := by
  unfold haveACharacter
  rw [List.any_eq_true]
  exact ⟨cur, findCurrentChar_mem c index cur h,
    by simp [findCurrentChar_position c index cur h]⟩

/-- In a roster with distinct positions the unit found on a cell is the unit
that stands there. -/
theorem findCurrentChar_of_mem (c : Controller) (index : Int) (cur : PositionedCharacter)
    (hd : DistinctPositions c.state.teams) (hmem : cur ∈ c.state.teams)
    (hpos : cur.position = some index) : findCurrentChar c index = some cur := by
  unfold findCurrentChar
  unfold DistinctPositions at hd
  generalize c.state.teams = l at hd hmem
  induction l with
  | nil => cases hmem
  | cons x xs ih =>
    rw [List.map_cons, List.nodup_cons] at hd
    rcases List.mem_cons.mp hmem with h | h
    · subst h
      simp [List.find?_cons, hpos]
    · have hx : x.position ≠ some index := by
        intro e
        exact hd.1 (by rw [e, ← hpos]; exact List.mem_map_of_mem _ h)
      rw [List.find?_cons_of_neg _ (by simpa using hx)]
      exact ih hd.2 h

/-- C10: whatever the selection, `playerTurn` and the cached flags, a click on
a cell that holds a player unit (the unit `findCurrentChar` finds there, which
in a roster with distinct positions is the unit standing there) returns with
that unit as the selection and the cell as `prevSelectedCharIndex`, and with
nothing else changed: same roster, same `playerTurn`, same trace, so neither
`endOfTurn` nor an attack has run. -/
theorem onCellClick_selects_player_unit (env : Env) (c : Controller) (index : Int)
    (cur : PositionedCharacter)
    (hcell : findCurrentChar c index = some cur
      ∨ (DistinctPositions c.state.teams ∧ cur ∈ c.state.teams ∧ cur.position = some index))
    (hplayer : cur.character.isPlayer = true) :
    onCellClick env c index
        = .done { c with selectedChar := some cur, prevSelectedCharIndex := some index }
      ∧ (onCellClick env c index).controller?.map (fun c' => c'.state) = some c.state
      ∧ (onCellClick env c index).controller?.map (fun c' => c'.trace) = some c.trace := by
  have hfind : findCurrentChar c index = some cur := by
    rcases hcell with h | ⟨hd, hmem, hpos⟩
    · exact h
    · exact findCurrentChar_of_mem c index cur hd hmem hpos
  have hpos := findCurrentChar_position c index cur hfind
  have hhave := haveACharacter_of_find c index cur hfind
  have hmain : onCellClick env c index
      = .done { c with selectedChar := some cur, prevSelectedCharIndex := some index } := by
    unfold onCellClick
    simp [onCellClickRest, hfind, hhave, hplayer, hpos, Result.andThen]
  refine ⟨hmain, ?_, ?_⟩ <;> rw [hmain] <;> rfl

/-- A click on the second player unit of `busyController` selects it. -/
theorem onCellClick_selects_player_unit_witness :
    onCellClick sampleEnv busyController 8
      = .done { busyController with
          selectedChar := some (samplePlayer 20 50 8), prevSelectedCharIndex := some 8 } :=
  (onCellClick_selects_player_unit sampleEnv busyController 8 (samplePlayer 20 50 8)
    (Or.inr (by decide)) (by decide)).1

/-! ## The bound on the mutual calls is enough -/

theorem relocate_playerTurn (c : Controller) (unit : PositionedCharacter) (cell : Option Int) :
    (relocate c unit cell).state.playerTurn = c.state.playerTurn := rfl

/-- With `playerTurn` false `endOfTurn` does not call `stepAI`. -/
theorem endOfTurnAux_of_not_playerTurn (env : Env) (n : Nat) (c : Controller)
    (h : c.state.playerTurn = false) :
    endOfTurnAux env (n + 2) c = endOfTurnAux env 1 c := by
  simp [endOfTurnAux, Controller.log, Controller.setPlayerTurn, h]

theorem stepAIAux_of_not_playerTurn (env : Env) (n : Nat) (c : Controller)
    (h : c.state.playerTurn = false) :
    stepAIAux env (n + 3) c = stepAIAux env 2 c := by
  have key : ∀ (c' : Controller) (npc : PositionedCharacter) (cell : Option Int),
      c'.state.playerTurn = false →
      endOfTurnAux env (n + 2) (relocate c' npc cell) = endOfTurnAux env 1 (relocate c' npc cell) :=
    fun c' npc cell h' => endOfTurnAux_of_not_playerTurn env n _ (by rw [relocate_playerTurn, h'])
  simp only [stepAIAux, Controller.log]
  split
  · rfl
  · split
    · rfl
    · split
      · rfl
      · split
        · rfl
        · rfl
        · exact key _ _ _ h

theorem endOfTurnAux_succ (env : Env) (n : Nat) (c : Controller) :
    endOfTurnAux env (n + 4) c = endOfTurnAux env 3 c := by
  have key : ∀ c' : Controller, stepAIAux env (n + 3) (c'.setPlayerTurn false)
      = stepAIAux env 2 (c'.setPlayerTurn false) :=
    fun c' => stepAIAux_of_not_playerTurn env n _ rfl
  simp only [endOfTurnAux, key]

/-- Three levels of calls are all that `endOfTurn` ever makes. -/
theorem endOfTurnAux_enough (env : Env) (n : Nat) (c : Controller) (h : 3 ≤ n) :
    endOfTurnAux env n c = endOfTurn env c := by
  unfold endOfTurn
  rw [show (4 : Nat) = 0 + 4 from rfl, endOfTurnAux_succ]
  obtain ⟨m, rfl⟩ := Nat.exists_eq_add_of_le h
  cases m with
  | zero => rfl
  | succ k =>
    rw [show 3 + (k + 1) = k + 4 by omega]
    exact endOfTurnAux_succ env k c

/-- Four levels of calls are all that `stepAI` ever makes. -/
theorem stepAIAux_enough (env : Env) (n : Nat) (c : Controller) (h : 4 ≤ n) :
    stepAIAux env n c = stepAI env c := by
  obtain ⟨m, rfl⟩ := Nat.exists_eq_add_of_le h
  unfold stepAI
  rw [show 4 + m = (m + 3) + 1 by omega]
  simp only [stepAIAux, Controller.log]
  split
  · rfl
  · split
    · rfl
    · split
      · rfl
      · split
        · rfl
        · rfl
        · rw [endOfTurnAux_enough env (m + 3) _ (by omega), endOfTurnAux_enough env 3 _ (by omega)]

theorem indexStep_ne_fuel (env : Env) (npc : PositionedCharacter) :
    ∀ (fuel : Nat) (cells : List Int) (rnd : List Nat), cells.length < fuel →
      indexStep env npc fuel cells rnd ≠ .fuel := by
  intro fuel
  induction fuel with
  | zero => intro cells rnd h; omega
  | succ n ih =>
    intro cells rnd h
    unfold indexStep
    simp only
    split
    · split
      · simp
      · rename_i hne
        apply ih
        have hpos : 0 < cells.length := by
          cases cells with
          | nil => simp at hne
          | cons x xs => simp
        have hlt := random_lt cells.length rnd hpos
        rw [List.length_eraseIdx, if_pos hlt]
        omega
    · simp

theorem endOfTurnAux_one_ne_fuel (env : Env) (c : Controller)
    (h : c.state.playerTurn = false) : endOfTurnAux env 1 c ≠ .fuel := by
  simp only [endOfTurnAux, Controller.log, Controller.setPlayerTurn, h, Bool.false_eq_true,
    if_false]
  split
  · simp
  · split_ifs <;> simp

theorem stepAIAux_two_ne_fuel (env : Env) (c : Controller)
    (h : c.state.playerTurn = false) : stepAIAux env 2 c ≠ .fuel := by
  simp only [stepAIAux, Controller.log]
  split
  · simp
  · split
    · simp
    · split
      · simp
      · split
        · rename_i hf
          exact absurd hf (indexStep_ne_fuel env _ _ _ _ (Nat.lt_succ_self _))
        · simp
        · exact endOfTurnAux_one_ne_fuel env _ (by rw [relocate_playerTurn]; exact h)

/-- The method `endOfTurn` comes to an end: it returns or throws. -/
theorem endOfTurn_ne_fuel (env : Env) (c : Controller) : endOfTurn env c ≠ .fuel := by
  have key : ∀ c' : Controller, stepAIAux env 2 (c'.setPlayerTurn false) ≠ .fuel :=
    fun c' => stepAIAux_two_ne_fuel env _ rfl
  unfold endOfTurn
  rw [show (4 : Nat) = 0 + 4 from rfl, endOfTurnAux_succ]
  simp only [endOfTurnAux]
  split
  · simp
  · split_ifs <;> first | exact key _ | simp

/-- The method `stepAI` comes to an end: it returns or throws. -/
theorem stepAI_ne_fuel (env : Env) (c : Controller) : stepAI env c ≠ .fuel := by
  unfold stepAI
  simp only [stepAIAux, Controller.log]
  split
  · simp
  · split
    · simp
    · split
      · simp
      · split
        · rename_i hf
          exact absurd hf (indexStep_ne_fuel env _ _ _ _ (Nat.lt_succ_self _))
        · simp
        · rw [endOfTurnAux_enough env 3 _ (le_refl 3)]
          exact endOfTurn_ne_fuel env _

/-! ## Clicks on cached flags -/

theorem findCurrentChar_none (c : Controller) (index : Int)
    (h : haveACharacter c index = false) : findCurrentChar c index = none := by
  unfold haveACharacter at h
  unfold findCurrentChar
  rw [List.find?_eq_none]
  rw [List.any_eq_false] at h
  exact h

/-- With the step flag unset, a click on an empty cell is turned down: a
tooltip and nothing else. -/
theorem onCellClick_empty_of_flag_unset (env : Env) (c : Controller) (index : Int)
    (selected : PositionedCharacter) (hsel : c.selectedChar = some selected)
    (hempty : haveACharacter c index = false) (hflag : c.stepIsPossible = false) :
    onCellClick env c index = .done (c.log (.showTooltip .impossibleToGo)) := by
  unfold onCellClick
  simp [onCellClickRest, findCurrentChar_none c index hempty, hempty, hsel, hflag,
    Result.andThen]

/-- With the attack flag unset, a click on a unit of the opposing side is
turned down: a tooltip and nothing else. -/
theorem onCellClick_enemy_of_flag_unset (env : Env) (c : Controller) (index : Int)
    (selected cur : PositionedCharacter) (hsel : c.selectedChar = some selected)
    (hfind : findCurrentChar c index = some cur) (henemy : cur.character.isPlayer = false)
    (hflag : c.attackIsPossible = false) :
    onCellClick env c index = .done (c.log (.showTooltip .tooFar)) := by
  unfold onCellClick
  simp [onCellClickRest, hfind, haveACharacter_of_find c index cur hfind, henemy, hsel, hflag,
    Result.andThen]

/-- The pointer enters an empty cell that the selected unit cannot reach and
the cell is clicked: the click is turned down. -/
theorem enter_then_click_empty_rejected (env : Env) (c : Controller) (index : Int)
    (selected : PositionedCharacter) (hsel : c.selectedChar = some selected)
    (hempty : haveACharacter c index = false)
    (hfar : env.isStepPossible selected.position (some index) selected.character.step = false) :
    onCellEnter env c index = { c with stepIsPossible := false }
      ∧ onCellClick env (onCellEnter env c index) index
          = .done ({ c with stepIsPossible := false }.log (.showTooltip .impossibleToGo)) := by
  have h1 : onCellEnter env c index = { c with stepIsPossible := false } := by
    unfold onCellEnter
    simp [hempty, hsel, hfar]
  refine ⟨h1, ?_⟩
  rw [h1]
  exact onCellClick_empty_of_flag_unset env _ index selected hsel hempty rfl

/-- The pointer enters the cell of a unit of the opposing side that the
selected unit cannot attack and the cell is clicked: the click is turned
down. -/
theorem enter_then_click_enemy_rejected (env : Env) (c : Controller) (index : Int)
    (selected cur : PositionedCharacter) (hsel : c.selectedChar = some selected)
    (hfind : findCurrentChar c index = some cur) (henemy : cur.character.isPlayer = false)
    (hfar : env.isAttackPossible selected.position cur.position selected.character.range
      = false) :
    onCellEnter env c index = { c with attackIsPossible := false }
      ∧ onCellClick env (onCellEnter env c index) index
          = .done ({ c with attackIsPossible := false }.log (.showTooltip .tooFar)) := by
  have h1 : onCellEnter env c index = { c with attackIsPossible := false } := by
    unfold onCellEnter
    simp [hfind, haveACharacter_of_find c index cur hfind, hsel, henemy, hfar]
  refine ⟨h1, ?_⟩
  rw [h1]
  exact onCellClick_enemy_of_flag_unset env _ index selected cur hsel hfind henemy rfl

/-! ## Whose turn it is -/

theorem nextLevel_playerTurn (env : Env) (c : Controller) :
    (nextLevel env c).state.playerTurn = c.state.playerTurn := by
  unfold nextLevel
  simp only [Controller.log, Controller.setTeams, gt_iff_lt]
  split
  · simp [endGame, renderScore, Controller.log]
  · simp [renderScore]

/-- With `playerTurn` false, a living selection and both sides on the board,
`endOfTurn` hands the turn to the player and `stepAI` is not called. -/
theorem endOfTurn_of_not_playerTurn (env : Env) (c : Controller)
    (selected : PositionedCharacter) (hsel : c.selectedChar = some selected)
    (halive : selected.character.health ≠ 0) (hturn : c.state.playerTurn = false)
    (hplayer : (getPlayerTeam c).length ≠ 0) (hnpc : (getNPCTeam c).length ≠ 0) :
    endOfTurn env c
      = .done { c with
          state := { c.state with playerTurn := true }
          prevSelectedCharIndex := none
          trace := c.trace ++ [Event.endOfTurn] } := by
  unfold endOfTurn
  rw [show (4 : Nat) = 2 + 2 from rfl, endOfTurnAux_of_not_playerTurn env 2 c hturn]
  simp only [getPlayerTeam, getNPCTeam] at hplayer hnpc
  simp [endOfTurnAux, Controller.log, Controller.setPlayerTurn, hsel, halive, hturn,
    getPlayerTeam, getNPCTeam, hplayer, hnpc]

/-- When the last unit of the opposing side is gone, `endOfTurn` runs
`nextLevel` with `playerTurn` false, and false it stays. -/
theorem endOfTurn_level_up_playerTurn (env : Env) (c : Controller)
    (selected : PositionedCharacter) (hsel : c.selectedChar = some selected)
    (hplayer : (getPlayerTeam c).length ≠ 0) (hnpc : (getNPCTeam c).length = 0) :
    ∃ c', endOfTurn env c = .done c' ∧ c'.state.playerTurn = false := by
  refine ⟨nextLevel env (({ (c.log .endOfTurn) with selectedChar :=
      if selected.character.health = 0 then none else some selected }).setPlayerTurn false),
    ?_, ?_⟩
  · unfold endOfTurn
    simp only [getPlayerTeam, getNPCTeam] at hplayer hnpc
    simp [endOfTurnAux, Controller.log, Controller.setPlayerTurn, hsel,
      getPlayerTeam, getNPCTeam, hplayer, hnpc]
  · rw [nextLevel_playerTurn]
    rfl

/-! ## Plays on the sample board -/

/-- C5 on the sample board: a player move to the empty cell 9, an attack, and
the move of the opposing unit to cell 2, which `indexStep` finds with the draw
0, each leave positions distinct. -/
theorem positions_stay_distinct_witness :
    DistinctPositions (relocate
        (sampleController [samplePlayer 20 50 0, sampleEnemy 15 3 1] none)
        (samplePlayer 20 50 0) (some 9)).state.teams
      ∧ DistinctPositions (attackTheEnemy
        (sampleController [samplePlayer 20 50 0, sampleEnemy 15 3 1] none)
        (some (samplePlayer 20 50 0)) (some (sampleEnemy 15 3 1))).state.teams
      ∧ DistinctPositions (relocate
        (sampleController [samplePlayer 20 50 0, sampleEnemy 15 3 1] none)
        (sampleEnemy 15 3 1) (some 2)).state.teams :=
  ⟨(positions_stay_distinct sampleEnv
      (sampleController [samplePlayer 20 50 0, sampleEnemy 15 3 1] none) (by decide)).1
      (samplePlayer 20 50 0) 9 (by decide),
   (positions_stay_distinct sampleEnv
      (sampleController [samplePlayer 20 50 0, sampleEnemy 15 3 1] none) (by decide)).2.1
      (some (samplePlayer 20 50 0)) (some (sampleEnemy 15 3 1)),
   (positions_stay_distinct sampleEnv
      (sampleController [samplePlayer 20 50 0, sampleEnemy 15 3 1] none) (by decide)).2.2
      (by decide) (sampleEnemy 15 3 1) [0] [] (some 2) (by decide)⟩

/-- C8 at level 4 with one player unit left: the level stays 4 and the roster
is the one that was there. -/
theorem nextLevel_level_capped_witness :
    (nextLevel sampleEnv
        { sampleController [samplePlayer 20 50 0] (some (samplePlayer 20 50 0)) with
          state := { currentLevel := 4, teams := [samplePlayer 20 50 0], numberOfPoints := 7,
                     playerTurn := false, record := 0 } }).state.currentLevel = 4
      ∧ (nextLevel sampleEnv
        { sampleController [samplePlayer 20 50 0] (some (samplePlayer 20 50 0)) with
          state := { currentLevel := 4, teams := [samplePlayer 20 50 0], numberOfPoints := 7,
                     playerTurn := false, record := 0 } }).state.teams
          = [samplePlayer 20 50 0] :=
  ⟨(nextLevel_level_capped sampleEnv
      { sampleController [samplePlayer 20 50 0] (some (samplePlayer 20 50 0)) with
        state := { currentLevel := 4, teams := [samplePlayer 20 50 0], numberOfPoints := 7,
                   playerTurn := false, record := 0 } } (by decide) (by decide)).1,
   ((nextLevel_level_capped sampleEnv
      { sampleController [samplePlayer 20 50 0] (some (samplePlayer 20 50 0)) with
        state := { currentLevel := 4, teams := [samplePlayer 20 50 0], numberOfPoints := 7,
                   playerTurn := false, record := 0 } } (by decide) (by decide)).2.2.2 rfl).1⟩

/-- C4 fails on the code.  On the sample board the player selects the unit on
cell 0 (step 1, range 7), moves the pointer over the empty cell 1 and then over
cell 63, kills the unit there, and the opposing side takes its turn.  The
pointer has not moved; cell 63 is empty now and out of step range, but the
cached `stepIsPossible` is still the one computed for cell 1.  A second click
on cell 63 moves the unit there and runs `endOfTurn` and `stepAI`. -/
theorem onCellClick_moves_on_stale_flag :
    (play sampleEnv (init sampleEnv [0, 0, 52]) staleFlagPlay).controller?.map
        Controller.summary
      = some { currentLevel := 1, playerTurn := true, stepIsPossible := true,
               selected := some (some 0, 1),
               roster := [(some 0, true), (some 8, true), (some 54, false)],
               endOfTurnCalls := 2, stepAICalls := 1 }
    ∧ sampleEnv.isStepPossible (some 0) (some 63) 1 = false
    ∧ (play sampleEnv (init sampleEnv [0, 0, 52])
          (staleFlagPlay ++ [Input.cellClick 63])).controller?.map Controller.summary
      = some { currentLevel := 1, playerTurn := false, stepIsPossible := true,
               selected := some (some 63, 1),
               roster := [(some 8, true), (some 54, false), (some 63, true)],
               endOfTurnCalls := 3, stepAICalls := 2 } := by
  refine ⟨by decide!, by decide, by decide!⟩

/-- C6 fails on the code.  On the sample board the player clears the first
level; `endOfTurn` sets `playerTurn` to false and runs `nextLevel`, which never
sets it back.  The first move of the player on level 2 (cell 0 to cell 9, both
sides on the board) runs `endOfTurn` once more, but `stepAI` is not called: the
count of `stepAI` stays 1 and the turn is the player's again.  Only after the
next move (cell 9 to cell 18) does the opposing side act. -/
theorem no_stepAI_after_level_up :
    (play sampleEnv (init sampleEnv [0, 0, 52])
          (firstLevelPlay ++ [Input.cellEnter 9])).controller?.map Controller.summary
      = some { currentLevel := 2, playerTurn := false, stepIsPossible := true,
               selected := some (some 0, 1),
               roster := [(some 0, true), (some 1, true), (some 8, true),
                          (some 63, false), (some 55, false), (some 47, false)],
               endOfTurnCalls := 3, stepAICalls := 1 }
    ∧ (play sampleEnv (init sampleEnv [0, 0, 52])
          (firstLevelPlay ++ [Input.cellEnter 9, Input.cellClick 9])).controller?.map
        Controller.summary
      = some { currentLevel := 2, playerTurn := true, stepIsPossible := true,
               selected := some (some 9, 1),
               roster := [(some 1, true), (some 8, true), (some 63, false),
                          (some 55, false), (some 47, false), (some 9, true)],
               endOfTurnCalls := 4, stepAICalls := 1 }
    ∧ (play sampleEnv (init sampleEnv [0, 0, 52])
          (firstLevelPlay ++ [Input.cellEnter 9, Input.cellClick 9,
            Input.cellEnter 18, Input.cellClick 18])).controller?.map Controller.summary
      = some { currentLevel := 2, playerTurn := true, stepIsPossible := true,
               selected := some (some 18, 1),
               roster := [(some 1, true), (some 8, true), (some 55, false),
                          (some 47, false), (some 18, true), (some 54, false)],
               endOfTurnCalls := 6, stepAICalls := 2 } := by
  refine ⟨by decide!, by decide!, by decide!⟩

/-! ## The pointer over a cell -/

theorem onCellEnter_eq (env : Env) (c : Controller) (index : Int) :
    onCellEnter env c index
      = { c with stepIsPossible := enteredStep env c index,
                 attackIsPossible := enteredAttack env c index } := by
  obtain ⟨state, sel, prev, sp, ap, trace, rnd⟩ := c
  unfold onCellEnter enteredStep enteredAttack
  cases sel <;>
    cases hhave : haveACharacter ⟨state, _, prev, sp, ap, trace, rnd⟩ index <;>
    cases hfind : findCurrentChar ⟨state, _, prev, sp, ap, trace, rnd⟩ index <;>
    simp [hhave, hfind]
  all_goals split <;> simp_all

theorem haveACharacter_flags (c : Controller) (sp ap : Bool) (index : Int) :
    haveACharacter { c with stepIsPossible := sp, attackIsPossible := ap } index
      = haveACharacter c index := rfl

theorem findCurrentChar_flags (c : Controller) (sp ap : Bool) (index : Int) :
    findCurrentChar { c with stepIsPossible := sp, attackIsPossible := ap } index
      = findCurrentChar c index := rfl

/-- C11: `onCellEnter` leaves `this.state` (level, roster, score, `playerTurn`,
`record`), the selection, `prevSelectedCharIndex`, the trace and the draws as
they are, for every controller and every cell; it may write the two cached
flags only, and a second call on the same cell returns what the first call
returned. -/
theorem onCellEnter_idempotent (env : Env) (c : Controller) (index : Int) :
    (onCellEnter env c index).state = c.state
      ∧ (onCellEnter env c index).selectedChar = c.selectedChar
      ∧ (onCellEnter env c index).prevSelectedCharIndex = c.prevSelectedCharIndex
      ∧ (onCellEnter env c index).trace = c.trace
      ∧ (onCellEnter env c index).rnd = c.rnd
      ∧ onCellEnter env (onCellEnter env c index) index = onCellEnter env c index := by
  refine ⟨?_, ?_, ?_, ?_, ?_, ?_⟩
  · rw [onCellEnter_eq]
  · rw [onCellEnter_eq]
  · rw [onCellEnter_eq]
  · rw [onCellEnter_eq]
  · rw [onCellEnter_eq]
  · rw [onCellEnter_eq env c index, onCellEnter_eq]
    simp only [enteredStep, enteredAttack, haveACharacter_flags, findCurrentChar_flags]
    cases hsel : c.selectedChar <;> cases hhave : haveACharacter c index <;>
      cases hfind : findCurrentChar c index <;> simp
    intro h
    simp [h]
/-! ## Loading -/

/-- C12, as the code has it: when `stateService.load()` throws, `onLoadGame`
leaves `this.state` (level, roster, score, `playerTurn`, `record`), the cached
flags and `prevSelectedCharIndex` as they are and shows one tooltip; the
selection is gone, because `selectedChar` is set to `null` before the load is
tried. -/
theorem onLoadGame_failure (c : Controller) :
    (onLoadGame c none).state = c.state
      ∧ (onLoadGame c none).selectedChar = none
      ∧ (onLoadGame c none).prevSelectedCharIndex = c.prevSelectedCharIndex
      ∧ (onLoadGame c none).stepIsPossible = c.stepIsPossible
      ∧ (onLoadGame c none).attackIsPossible = c.attackIsPossible
      ∧ (onLoadGame c none).trace = c.trace ++ [Event.showTooltip Message.loadFailed] :=
  ⟨rfl, rfl, rfl, rfl, rfl, rfl⟩

/-- C12 as stated fails: a failed load on `busyController`, whose first player
unit is selected, leaves no selection. -/
theorem onLoadGame_failure_clears_selection :
    busyController.selectedChar = some (samplePlayer 20 50 0)
      ∧ (onLoadGame busyController none).selectedChar = none
      ∧ (onLoadGame busyController none).selectedChar ≠ busyController.selectedChar := by
  refine ⟨rfl, rfl, ?_⟩
  decide

/-! ## The record -/

theorem renderScore_record (c : Controller) :
    (renderScore c).state.record = max c.state.record c.state.numberOfPoints := by
  unfold renderScore
  simp only
  split
  · rw [max_eq_left (le_of_lt (by assumption))]
  · rw [max_eq_right (by omega)]

theorem renderScore_record_le (c : Controller) :
    c.state.record ≤ (renderScore c).state.record := by
  rw [renderScore_record]; exact le_max_left _ _

theorem nextLevel_record (env : Env) (c : Controller) :
    (nextLevel env c).state.record
      = max c.state.record (nextLevel env c).state.numberOfPoints := by
  unfold nextLevel
  simp only [Controller.log, Controller.setTeams, gt_iff_lt]
  split
  · simp only [endGame, Controller.log]
    rw [renderScore_record]
    rfl
  · simp only
    rw [renderScore_record]
    rfl

theorem relocate_record (c : Controller) (unit : PositionedCharacter) (cell : Option Int) :
    (relocate c unit cell).state.record = c.state.record := rfl

theorem attackTheEnemy_record (c : Controller) (attacker defender : Option PositionedCharacter) :
    (attackTheEnemy c attacker defender).state.record = c.state.record := by
  unfold attackTheEnemy
  cases attacker <;> cases defender <;> simp [Controller.log, Controller.setTeams]
  split <;> rfl

theorem Result.All_mono (p q : Controller → Prop) (r : Result) (h : ∀ c, p c → q c)
    (hr : r.All p) : r.All q := by
  cases r with
  | done c => exact h c hr
  | thrown c => exact h c hr
  | fuel => trivial

/-- Neither `endOfTurn` nor `stepAI` lowers the record, at any depth. -/
theorem turn_record_le (env : Env) (n : Nat) :
    (∀ c : Controller, (endOfTurnAux env n c).All (fun c' => c.state.record ≤ c'.state.record))
      ∧ (∀ c : Controller,
          (stepAIAux env n c).All (fun c' => c.state.record ≤ c'.state.record)) := by
  induction n with
  | zero =>
    constructor <;> intro c
    · simp [endOfTurnAux, Result.All]
    · simp [stepAIAux, Result.All]
  | succ n ih =>
    constructor
    · intro c
      simp only [endOfTurnAux]
      split
      · exact le_refl _
      · split_ifs
        all_goals first
          | exact le_refl _
          | exact (ih.2 _)
          | (simp only [Result.All]; rw [nextLevel_record]; exact le_max_left _ _)
    · intro c
      simp only [stepAIAux]
      split
      · exact le_refl _
      · split
        · simp only [Result.All]
          rw [attackTheEnemy_record]
          exact le_refl _
        · split
          · exact le_refl _
          · split
            · trivial
            · exact le_refl _
            · exact ih.1 _
theorem onCellClickRest_record (c : Controller) (index : Int) (isCharacter : Bool)
    (currentChar : Option PositionedCharacter) :
    (onCellClickRest c index isCharacter currentChar).All
      (fun c' => c'.state.record = c.state.record) := by
  unfold onCellClickRest
  split_ifs
  all_goals first
    | exact rfl
    | exact attackTheEnemy_record _ _ _

theorem onCellClickRest_ne_fuel (c : Controller) (index : Int) (isCharacter : Bool)
    (currentChar : Option PositionedCharacter) :
    onCellClickRest c index isCharacter currentChar ≠ .fuel := by
  unfold onCellClickRest
  split_ifs <;> simp

theorem moved_record_le (env : Env) (c : Controller) (index : Int) (free : Bool) :
    (match c.selectedChar with
      | some selectedChar =>
        if c.stepIsPossible && free then endOfTurn env (relocate c selectedChar (some index))
        else Result.done c
      | none => Result.done c).All (fun c' => c.state.record ≤ c'.state.record) := by
  split
  · split_ifs
    · exact (turn_record_le env 4).1 _
    · exact le_refl _
  · exact le_refl _

theorem moved_ne_fuel (env : Env) (c : Controller) (index : Int) (free : Bool) :
    (match c.selectedChar with
      | some selectedChar =>
        if c.stepIsPossible && free then endOfTurn env (relocate c selectedChar (some index))
        else Result.done c
      | none => Result.done c) ≠ .fuel := by
  split
  · split_ifs
    · exact endOfTurn_ne_fuel env _
    · simp
  · simp

theorem onCellClick_record_le (env : Env) (c : Controller) (index : Int) :
    (onCellClick env c index).All (fun c' => c.state.record ≤ c'.state.record) := by
  have key : ∀ (r : Result) (isCharacter : Bool) (currentChar : Option PositionedCharacter),
      r.All (fun c' => c.state.record ≤ c'.state.record) →
      (r.andThen fun c' => onCellClickRest c' index isCharacter currentChar).All
        (fun c' => c.state.record ≤ c'.state.record) := by
    intro r isCharacter currentChar hr
    cases r with
    | done c1 =>
      exact Result.All_mono _ _ _ (fun c2 h2 => by rw [h2]; exact hr)
        (onCellClickRest_record c1 index isCharacter currentChar)
    | thrown c1 => exact hr
    | fuel => trivial
  unfold onCellClick
  apply key
  cases hfind : findCurrentChar c index with
  | none => exact moved_record_le env c index _
  | some cur =>
    by_cases hb : (haveACharacter c index && cur.character.isPlayer) = true
    · simp only [hb, if_true]
      exact moved_record_le env
        { c with selectedChar := some cur, prevSelectedCharIndex := some index } index _
    · simp only [hb, if_false]
      exact moved_record_le env c index _

theorem onCellClick_ne_fuel (env : Env) (c : Controller) (index : Int) :
    onCellClick env c index ≠ .fuel := by
  have key : ∀ (r : Result) (isCharacter : Bool) (currentChar : Option PositionedCharacter),
      r ≠ .fuel →
      (r.andThen fun c' => onCellClickRest c' index isCharacter currentChar) ≠ .fuel := by
    intro r isCharacter currentChar hr
    cases r with
    | done c1 => exact onCellClickRest_ne_fuel c1 index isCharacter currentChar
    | thrown c1 => simp [Result.andThen]
    | fuel => exact absurd rfl hr
  unfold onCellClick
  apply key
  cases hfind : findCurrentChar c index with
  | none => exact moved_ne_fuel env c index _
  | some cur =>
    by_cases hb : (haveACharacter c index && cur.character.isPlayer) = true
    · simp only [hb, if_true]
      exact moved_ne_fuel env
        { c with selectedChar := some cur, prevSelectedCharIndex := some index } index _
    · simp only [hb, if_false]
      exact moved_ne_fuel env c index _
theorem onLoadGame_record (c : Controller) (loaded : Option GameState) :
    (onLoadGame c loaded).state.record
      = match loaded with
        | none => c.state.record
        | some loadState => max c.state.record loadState.numberOfPoints := by
  cases loaded with
  | none => rfl
  | some loadState =>
    simp only [onLoadGame, Controller.log]
    rw [renderScore_record]

theorem onNewGame_record (env : Env) (c : Controller) :
    (onNewGame env c).state.record = max c.state.record 0 := by
  simp only [onNewGame, Controller.log, subscribeCells]
  rw [renderScore_record]
  rfl

theorem handle_record_le (env : Env) (c : Controller) (input : Input) :
    (handle env c input).All (fun c' => c.state.record ≤ c'.state.record) := by
  cases input with
  | cellClick index => exact onCellClick_record_le env c index
  | cellEnter index =>
    show c.state.record ≤ (onCellEnter env c index).state.record
    rw [onCellEnter_eq]
  | cellLeave index => exact le_refl _
  | damageShown => exact (turn_record_le env 4).1 (c.log .addCellClickListener)
  | newGame =>
    show c.state.record ≤ (onNewGame env c).state.record
    rw [onNewGame_record]; exact le_max_left _ _
  | saveGame => exact le_refl _
  | loadGame loaded =>
    show c.state.record ≤ (onLoadGame c loaded).state.record
    rw [onLoadGame_record]
    cases loaded with
    | none => exact le_refl _
    | some loadState => exact le_max_left _ _

theorem handle_ne_fuel (env : Env) (c : Controller) (input : Input) :
    handle env c input ≠ .fuel := by
  cases input with
  | cellClick index => exact onCellClick_ne_fuel env c index
  | damageShown => exact endOfTurn_ne_fuel env _
  | cellEnter index => simp [handle]
  | cellLeave index => simp [handle]
  | newGame => simp [handle]
  | saveGame => simp [handle]
  | loadGame loaded => simp [handle]

theorem play_record_le (env : Env) (inputs : List Input) :
    ∀ c : Controller, (play env c inputs).All (fun c' => c.state.record ≤ c'.state.record) := by
  induction inputs with
  | nil => intro c; exact le_refl _
  | cons input rest ih =>
    intro c
    have h := handle_record_le env c input
    simp only [play]
    cases hr : handle env c input with
    | done c1 =>
      rw [hr] at h
      exact Result.All_mono _ _ _ (fun c2 h2 => le_trans h h2) (ih c1)
    | thrown c1 =>
      rw [hr] at h
      exact Result.All_mono _ _ _ (fun c2 h2 => le_trans h h2) (ih c1)
    | fuel => trivial

theorem play_ne_fuel (env : Env) (inputs : List Input) :
    ∀ c : Controller, play env c inputs ≠ .fuel := by
  induction inputs with
  | nil => intro c; simp [play]
  | cons input rest ih =>
    intro c
    simp only [play]
    cases hr : handle env c input with
    | done c1 => exact ih c1
    | thrown c1 => exact ih c1
    | fuel => exact absurd hr (handle_ne_fuel env c input)

/-- C13: `init` leaves the record at 0; `renderScore` sets it to the larger of
the old record and `numberOfPoints`; preparing a game, a move, an attack, the
pointer over a cell and saving leave it as it is; loading, a new game and the
level progression (the end of the game included) change it through their call
of `renderScore` only.  So no listener lowers the record, and no sequence of
inputs does; every listener comes to an end. -/
theorem record_never_decreases (env : Env) (c : Controller) :
    (∀ rnd, (init env rnd).state.record = 0)
      ∧ (renderScore c).state.record = max c.state.record c.state.numberOfPoints
      ∧ (prepareGame env c).state.record = c.state.record
      ∧ (∀ unit cell, (relocate c unit cell).state.record = c.state.record)
      ∧ (∀ attacker defender, (attackTheEnemy c attacker defender).state.record = c.state.record)
      ∧ (∀ index, (onCellEnter env c index).state.record = c.state.record)
      ∧ (onSaveGame c).state.record = c.state.record
      ∧ (∀ loadState, (onLoadGame c (some loadState)).state.record
            = max c.state.record loadState.numberOfPoints)
      ∧ (onLoadGame c none).state.record = c.state.record
      ∧ (onNewGame env c).state.record = max c.state.record 0
      ∧ (nextLevel env c).state.record
            = max c.state.record (nextLevel env c).state.numberOfPoints
      ∧ (∀ input, (handle env c input).All (fun c' => c.state.record ≤ c'.state.record)
            ∧ handle env c input ≠ .fuel)
      ∧ (∀ inputs, (play env c inputs).All (fun c' => c.state.record ≤ c'.state.record)
            ∧ play env c inputs ≠ .fuel) := by
  refine ⟨?_, renderScore_record c, rfl, fun _ _ => rfl, attackTheEnemy_record c, ?_, rfl,
    fun loadState => onLoadGame_record c (some loadState), rfl, onNewGame_record env c,
    nextLevel_record env c, fun input => ⟨handle_record_le env c input, handle_ne_fuel env c input⟩,
    fun inputs => ⟨play_record_le env inputs c, play_ne_fuel env inputs c⟩⟩
  · intro rnd
    simp only [init, Controller.log, subscribeCells]
    rw [renderScore_record]
    rfl
  · intro index
    rw [onCellEnter_eq]
/-! ## Construction of a positioned character -/

/-- C14: on the constructor as the specification describes it, a payload that
is not a `Character` makes the construction fail whatever the position, and a
position that is not a number makes it fail whatever the payload. -/
theorem construct_fails (payload position : JSValue) :
    ((∀ ch, payload ≠ JSValue.character ch) →
        (PositionedCharacter.construct payload position).toOption = none)
      ∧ ((∀ x, position ≠ JSValue.number x) →
        (PositionedCharacter.construct payload position).toOption = none) := by
  constructor
  · intro h
    cases payload with
    | character ch => exact absurd rfl (h ch)
    | _ => rfl
  · intro h
    cases payload with
    | character ch =>
      cases position with
      | number x => exact absurd rfl (h x)
      | _ => rfl
    | _ => rfl

/-- The two cases of the test file: a plain object with position 1, and an
archer with the string `'1'` as position. -/
theorem construct_fails_witness :
    (PositionedCharacter.construct JSValue.plainObject (JSValue.number 1)).toOption = none
      ∧ (PositionedCharacter.construct (JSValue.character sampleBowman)
          (JSValue.string "1")).toOption = none :=
  ⟨(construct_fails JSValue.plainObject (JSValue.number 1)).1 (fun ch h => by cases h),
   (construct_fails (JSValue.character sampleBowman) (JSValue.string "1")).2
     (fun x h => by cases h)⟩

/-! ## The destination search finds a cell -/

theorem random_cons (n r : Nat) (rest : List Nat) :
    random n (r :: rest) = (randomIndex n r, rest) := rfl

theorem random_rest_length (n : Nat) (rnd : List Nat) :
    rnd.length ≤ (random n rnd).2.length + 1 := by
  cases rnd with
  | nil => simp [random]
  | cons r rest => simp [random]

/-- When some candidate is within step range, `indexStep` returns such a
candidate after at most as many calls as there are candidates. -/
theorem indexStep_finds (env : Env) (npc : PositionedCharacter) :
    ∀ (n : Nat) (cells : List Int) (rnd : List Nat), cells.length ≤ n →
      (∃ x ∈ cells, env.isStepPossible npc.position (some x) npc.character.step = true) →
      ∃ (cell : Int) (rnd' : List Nat),
        indexStep env npc n cells rnd = .found (some cell) rnd'
          ∧ cell ∈ cells
          ∧ env.isStepPossible npc.position (some cell) npc.character.step = true
          ∧ rnd.length ≤ rnd'.length + cells.length := by
  intro n
  induction n with
  | zero =>
    intro cells rnd hlen ⟨x, hx, _⟩
    have : cells = [] := List.length_eq_zero.mp (Nat.le_zero.mp hlen)
    rw [this] at hx
    cases hx
  | succ n ih =>
    intro cells rnd hlen ⟨x, hx, hlegal⟩
    have hpos : 0 < cells.length := List.length_pos_of_mem hx
    have hlt := random_lt cells.length rnd hpos
    have hrest := random_rest_length cells.length rnd
    unfold indexStep
    simp only
    rw [List.getElem?_eq_getElem hlt]
    by_cases hy : env.isStepPossible npc.position
        (some cells[(random cells.length rnd).1]) npc.character.step = true
    · refine ⟨cells[(random cells.length rnd).1], (random cells.length rnd).2, ?_,
        List.getElem_mem _, hy, by omega⟩
      simp [hy]
    · have hne : cells.isEmpty = false := by
        cases cells with
        | nil => simp at hpos
        | cons a as => rfl
      have hmem : x ∈ cells.eraseIdx (random cells.length rnd).1 := by
        rw [List.mem_eraseIdx_iff_getElem?]
        obtain ⟨i, hi⟩ := List.getElem?_of_mem hx
        refine ⟨i, ?_, hi⟩
        intro e
        subst e
        rw [List.getElem?_eq_getElem hlt] at hi
        injection hi with hi
        rw [hi] at hy
        exact hy hlegal
      have hlen' : (cells.eraseIdx (random cells.length rnd).1).length ≤ n := by
        rw [List.length_eraseIdx_of_lt hlt]
        omega
      obtain ⟨cell, rnd', h1, h2, h3, h4⟩ :=
        ih (cells.eraseIdx (random cells.length rnd).1) (random cells.length rnd).2 hlen'
          ⟨x, hmem, hlegal⟩
      refine ⟨cell, rnd', ?_, List.mem_of_mem_eraseIdx h2, h3, ?_⟩
      · simp only [Bool.not_eq_true] at hy
        simp [hy, hne, h1]
      · rw [List.length_eraseIdx_of_lt hlt] at h4
        omega
theorem stepAIAux_attack (env : Env) (n : Nat) (c : Controller)
    (attacker : PositionedCharacter × List PositionedCharacter)
    (hnpc : (getNPCTeam c).length ≠ 0) (hplayer : (getPlayerTeam c).length ≠ 0)
    (hget : (canAttackEnemies env c)[(random (canAttackEnemies env c).length c.rnd).1]?
      = some attacker) :
    stepAIAux env (n + 1) c
      = .done (attackTheEnemy
          { c.log .stepAI with
            rnd := (random attacker.2.length
              (random (canAttackEnemies env c).length c.rnd).2).2 }
          (some attacker.1)
          attacker.2[(random attacker.2.length
            (random (canAttackEnemies env c).length c.rnd).2).1]?) := by
  have h1 : getNPCTeam (c.log .stepAI) = getNPCTeam c := rfl
  have h2 : getPlayerTeam (c.log .stepAI) = getPlayerTeam c := rfl
  have h3 : canAttackEnemies env (c.log .stepAI) = canAttackEnemies env c := rfl
  have h4 : (c.log .stepAI).rnd = c.rnd := rfl
  simp only [stepAIAux, h1, h2, h3, h4, hnpc, hplayer, hget]
  simp

theorem stepAIAux_move (env : Env) (n : Nat) (c : Controller) (npc : PositionedCharacter)
    (cell : Option Int) (rnd' : List Nat)
    (hnpc : (getNPCTeam c).length ≠ 0) (hplayer : (getPlayerTeam c).length ≠ 0)
    (hcan : canAttackEnemies env c = [])
    (hget : (getNPCTeam c)[(random (getNPCTeam c).length (random 0 c.rnd).2).1]? = some npc)
    (hfound : indexStep env npc ((arrayOfCell env c).length + 1) (arrayOfCell env c)
      (random (getNPCTeam c).length (random 0 c.rnd).2).2 = .found cell rnd') :
    stepAIAux env (n + 1) c
      = endOfTurnAux env n (relocate { c.log .stepAI with rnd := rnd' } npc cell) := by
  have h1 : getNPCTeam (c.log .stepAI) = getNPCTeam c := rfl
  have h2 : getPlayerTeam (c.log .stepAI) = getPlayerTeam c := rfl
  have h3 : canAttackEnemies env (c.log .stepAI) = canAttackEnemies env c := rfl
  have h4 : (c.log .stepAI).rnd = c.rnd := rfl
  have h5 : ∀ r, arrayOfCell env { c.log .stepAI with rnd := r } = arrayOfCell env c :=
    fun _ => rfl
  simp only [stepAIAux, h1, h2, h3, h4, h5, hnpc, hplayer, hcan, List.length_nil,
    List.getElem?_nil, hget, hfound]
  simp

theorem stepAIAux_stuck (env : Env) (n : Nat) (c : Controller) (npc : PositionedCharacter)
    (hnpc : (getNPCTeam c).length ≠ 0) (hplayer : (getPlayerTeam c).length ≠ 0)
    (hcan : canAttackEnemies env c = [])
    (hget : (getNPCTeam c)[(random (getNPCTeam c).length (random 0 c.rnd).2).1]? = some npc)
    (hover : indexStep env npc ((arrayOfCell env c).length + 1) (arrayOfCell env c)
      (random (getNPCTeam c).length (random 0 c.rnd).2).2 = .overflow) :
    stepAIAux env (n + 1) c
      = .thrown { c.log .stepAI with
          rnd := (random (getNPCTeam c).length (random 0 c.rnd).2).2 } := by
  have h1 : getNPCTeam (c.log .stepAI) = getNPCTeam c := rfl
  have h2 : getPlayerTeam (c.log .stepAI) = getPlayerTeam c := rfl
  have h3 : canAttackEnemies env (c.log .stepAI) = canAttackEnemies env c := rfl
  have h4 : (c.log .stepAI).rnd = c.rnd := rfl
  have h5 : ∀ r, arrayOfCell env { c.log .stepAI with rnd := r } = arrayOfCell env c :=
    fun _ => rfl
  simp only [stepAIAux, h1, h2, h3, h4, h5, hnpc, hplayer, hcan, List.length_nil,
    List.getElem?_nil, hget, hover]
  simp
theorem distinct_position_ne (l : List PositionedCharacter) (u v : PositionedCharacter)
    (hd : DistinctPositions l) (hu : u ∈ l) (hv : v ∈ l) (hne : u ≠ v) :
    u.position ≠ v.position := by
  intro e
  have hu' : u ∈ l.erase v := (List.mem_erase_of_ne hne).mpr hu
  rw [← filter_position_eq_erase l v hd hv] at hu'
  have := (List.mem_filter.mp hu').2
  simp [e] at this

theorem canAttackEnemies_mem (env : Env) (c : Controller)
    (attacker : PositionedCharacter × List PositionedCharacter)
    (h : attacker ∈ canAttackEnemies env c) :
    attacker.1 ∈ getNPCTeam c
      ∧ attacker.2 = (getPlayerTeam c).filter (fun userChar =>
          env.isAttackPossible attacker.1.position userChar.position attacker.1.character.range)
      ∧ 0 < attacker.2.length := by
  unfold canAttackEnemies at h
  simp only [List.mem_filterMap] at h
  obtain ⟨prev, hprev, hsome⟩ := h
  split at hsome
  · rename_i hlen
    injection hsome with hsome
    subst hsome
    exact ⟨hprev, rfl, hlen⟩
  · cases hsome

theorem canAttackEnemies_ne_nil (env : Env) (c : Controller) (npc player : PositionedCharacter)
    (hnpc : npc ∈ getNPCTeam c) (hplayer : player ∈ getPlayerTeam c)
    (hreach : env.isAttackPossible npc.position player.position npc.character.range = true) :
    canAttackEnemies env c ≠ [] := by
  intro h
  have hmem : (npc, (getPlayerTeam c).filter (fun userChar =>
      env.isAttackPossible npc.position userChar.position npc.character.range))
      ∈ canAttackEnemies env c := by
    unfold canAttackEnemies
    simp only [List.mem_filterMap]
    refine ⟨npc, hnpc, ?_⟩
    have : 0 < ((getPlayerTeam c).filter (fun userChar =>
        env.isAttackPossible npc.position userChar.position npc.character.range)).length :=
      List.length_pos_of_mem (List.mem_filter.mpr ⟨hplayer, hreach⟩)
    simp [this]
  rw [h] at hmem
  cases hmem

theorem canAttackEnemies_eq_nil (env : Env) (c : Controller)
    (h : ∀ npc ∈ getNPCTeam c, ∀ player ∈ getPlayerTeam c,
      env.isAttackPossible npc.position player.position npc.character.range = false) :
    canAttackEnemies env c = [] := by
  cases hc : canAttackEnemies env c with
  | nil => rfl
  | cons a rest =>
    have hmem : a ∈ canAttackEnemies env c := by rw [hc]; exact List.mem_cons_self _ _
    obtain ⟨h1, h2, h3⟩ := canAttackEnemies_mem env c a hmem
    obtain ⟨p, hp⟩ := List.exists_mem_of_length_pos h3
    rw [h2] at hp
    have hp' := List.mem_filter.mp hp
    rw [h a.1 h1 p hp'.1] at hp'
    exact absurd hp'.2 (by simp)

/-- With `playerTurn` false and both sides on the board `endOfTurn` leaves the
roster as it is and records itself only. -/
theorem endOfTurnAux_one_roster (env : Env) (c : Controller)
    (hturn : c.state.playerTurn = false)
    (hplayer : (getPlayerTeam c).length ≠ 0) (hnpc : (getNPCTeam c).length ≠ 0) :
    ∃ c', (endOfTurnAux env 1 c).controller? = some c'
      ∧ c'.state.teams = c.state.teams
      ∧ c'.trace = c.trace ++ [Event.endOfTurn] := by
  simp only [getPlayerTeam, getNPCTeam] at hplayer hnpc
  cases hsel : c.selectedChar with
  | none =>
    refine ⟨c.log .endOfTurn, ?_, rfl, rfl⟩
    simp [endOfTurnAux, Controller.log, hsel, Result.controller?]
  | some s =>
    refine ⟨{ c with
        state := { c.state with playerTurn := true }
        selectedChar := if s.character.health = 0 then none else some s
        prevSelectedCharIndex := none
        trace := c.trace ++ [Event.endOfTurn] }, ?_, rfl, rfl⟩
    simp [endOfTurnAux, Controller.log, Controller.setPlayerTurn, hsel, hturn,
      getPlayerTeam, getNPCTeam, hplayer, hnpc, Result.controller?]
/-! ## What the opposing side does -/

/-- C15, as the code has it.  Both sides are on the board.
(1) If some unit of the opposing side has a player unit within attack range,
`stepAI` returns from `attackTheEnemy` called with a unit of the opposing side
and a player unit within its range; every roster entry afterwards is an old
entry or the damaged defender on the defender's cell, so no position changed.
(2) If no unit of the opposing side has a player unit in range, positions are
distinct, `playerTurn` is false (as `endOfTurn` leaves it before the call) and
the unit that `stepAI` picks has an unoccupied cell within its step range,
then `stepAI` calls no `attackTheEnemy` (the trace gains `stepAI` and
`endOfTurn` only) and the roster afterwards is the old one with the picked
unit taken out and put back on an unoccupied cell within its step range. -/
theorem stepAI_attacks_or_moves (env : Env) (c : Controller)
    (hnpc : (getNPCTeam c).length ≠ 0) (hplayer : (getPlayerTeam c).length ≠ 0) :
    ((∃ npc ∈ getNPCTeam c, ∃ player ∈ getPlayerTeam c,
          env.isAttackPossible npc.position player.position npc.character.range = true) →
        ∃ (npc defender : PositionedCharacter) (c2 : Controller),
          stepAI env c = .done (attackTheEnemy c2 (some npc) (some defender))
            ∧ c2.state = c.state
            ∧ c2.trace = c.trace ++ [Event.stepAI]
            ∧ npc ∈ getNPCTeam c
            ∧ defender ∈ getPlayerTeam c
            ∧ env.isAttackPossible npc.position defender.position npc.character.range = true
            ∧ ∀ u ∈ (attackTheEnemy c2 (some npc) (some defender)).state.teams,
                u ∈ c.state.teams
                  ∨ u = { defender with character :=
                            defender.character.damage (attackPoints npc defender) })
      ∧ ((∀ npc ∈ getNPCTeam c, ∀ player ∈ getPlayerTeam c,
            env.isAttackPossible npc.position player.position npc.character.range = false) →
          DistinctPositions c.state.teams → c.state.playerTurn = false →
          ∀ npc, pickedNPC c = some npc →
            (∃ x ∈ arrayOfCell env c,
              env.isStepPossible npc.position (some x) npc.character.step = true) →
            ∃ (cell : Int) (c' : Controller),
              (stepAI env c).controller? = some c'
                ∧ npc ∈ getNPCTeam c
                ∧ cell ∈ arrayOfCell env c
                ∧ env.isStepPossible npc.position (some cell) npc.character.step = true
                ∧ npc.position ≠ some cell
                ∧ c'.state.teams
                    = c.state.teams.erase npc ++ [{ npc with position := some cell }]
                ∧ c'.trace = c.trace ++ [Event.stepAI, Event.endOfTurn]) := by
  constructor
  · rintro ⟨npc0, hnpc0, p0, hp0, hreach0⟩
    have hne := canAttackEnemies_ne_nil env c npc0 p0 hnpc0 hp0 hreach0
    have hpos : 0 < (canAttackEnemies env c).length := List.length_pos.mpr hne
    have hlt := random_lt _ c.rnd hpos
    obtain ⟨attacker, hget⟩ : ∃ a,
        (canAttackEnemies env c)[(random (canAttackEnemies env c).length c.rnd).1]? = some a :=
      ⟨_, List.getElem?_eq_getElem hlt⟩
    obtain ⟨h1, h2, h3⟩ := canAttackEnemies_mem env c attacker (List.getElem?_mem hget)
    have hlt2 := random_lt _ (random (canAttackEnemies env c).length c.rnd).2 h3
    obtain ⟨defender, hdefget⟩ : ∃ d,
        attacker.2[(random attacker.2.length
          (random (canAttackEnemies env c).length c.rnd).2).1]? = some d :=
      ⟨_, List.getElem?_eq_getElem hlt2⟩
    have hdef : defender ∈ attacker.2 := List.getElem?_mem hdefget
    rw [h2] at hdef
    have hdef' := List.mem_filter.mp hdef
    refine ⟨attacker.1, defender,
      { c.log .stepAI with
        rnd := (random attacker.2.length (random (canAttackEnemies env c).length c.rnd).2).2 },
      ?_, rfl, rfl, h1, hdef'.1, hdef'.2, ?_⟩
    · unfold stepAI
      rw [stepAIAux_attack env 3 c attacker hnpc hplayer hget, hdefget]
    · intro u hu
      rw [attackTheEnemy_teams] at hu
      rcases List.mem_append.mp hu with h | h
      · exact Or.inl (List.mem_filter.mp h).1
      · split at h
        · exact Or.inr (List.mem_singleton.mp h)
        · cases h
  · intro hfar hd hturn npc hpick hlegal
    have hcan := canAttackEnemies_eq_nil env c hfar
    unfold pickedNPC at hpick
    have hmem : npc ∈ getNPCTeam c := List.getElem?_mem hpick
    have hmem' : npc ∈ c.state.teams := (List.mem_filter.mp hmem).1
    have hside : npc.character.isPlayer = false := by
      simpa using (List.mem_filter.mp hmem).2
    obtain ⟨cell, rnd', hfound, hcell, hstep, _⟩ :=
      indexStep_finds env npc ((arrayOfCell env c).length + 1) (arrayOfCell env c)
        (random (getNPCTeam c).length (random 0 c.rnd).2).2 (Nat.le_succ _) hlegal
    have hfree := arrayOfCell_free env c cell hcell
    have hrun : stepAI env c
        = endOfTurnAux env 1 (relocate { c.log .stepAI with rnd := rnd' } npc (some cell)) := by
      unfold stepAI
      rw [stepAIAux_move env 3 c npc (some cell) rnd' hnpc hplayer hcan hpick hfound]
      exact endOfTurnAux_of_not_playerTurn env 1 _ hturn
    have hteams : (relocate { c.log .stepAI with rnd := rnd' } npc (some cell)).state.teams
        = c.state.teams.erase npc ++ [{ npc with position := some cell }] := by
      rw [relocate_teams]
      exact congrArg (· ++ _) (filter_position_eq_erase c.state.teams npc hd hmem')
    obtain ⟨p, hp⟩ := List.exists_mem_of_length_pos (Nat.pos_of_ne_zero hplayer)
    have hp' := List.mem_filter.mp hp
    have hpne : p ≠ npc := by
      intro e
      rw [e, hside] at hp'
      exact absurd hp'.2 (by simp)
    have hplayer' : (getPlayerTeam
        (relocate { c.log .stepAI with rnd := rnd' } npc (some cell))).length ≠ 0 := by
      apply Nat.ne_of_gt
      apply List.length_pos_of_mem (a := p)
      unfold getPlayerTeam
      rw [hteams]
      exact List.mem_filter.mpr
        ⟨List.mem_append_left _ ((List.mem_erase_of_ne hpne).mpr hp'.1), hp'.2⟩
    have hnpc' : (getNPCTeam
        (relocate { c.log .stepAI with rnd := rnd' } npc (some cell))).length ≠ 0 := by
      apply Nat.ne_of_gt
      apply List.length_pos_of_mem (a := { npc with position := some cell })
      unfold getNPCTeam
      rw [hteams]
      exact List.mem_filter.mpr
        ⟨List.mem_append_right _ (List.mem_singleton.mpr rfl), by simp [hside]⟩
    obtain ⟨c', h1, h2, h3⟩ := endOfTurnAux_one_roster env
      (relocate { c.log .stepAI with rnd := rnd' } npc (some cell)) hturn hplayer' hnpc'
    refine ⟨cell, c', ?_, hmem, hcell, hstep, hfree npc hmem', ?_, ?_⟩
    · rw [hrun]; exact h1
    · rw [h2, hteams]
    · rw [h3]
      simp [relocate, Controller.log]
/-- C15 on the sample board: on `busyController` the unit on cell 1 has the
player unit on cell 0 in range and attacks; on `farController` nobody is in
range and the unit on cell 63 moves to a free cell next to it. -/
theorem stepAI_attacks_or_moves_witness :
    (∃ (npc defender : PositionedCharacter) (c2 : Controller),
        stepAI sampleEnv busyController = .done (attackTheEnemy c2 (some npc) (some defender))
          ∧ c2.state = busyController.state
          ∧ c2.trace = busyController.trace ++ [Event.stepAI]
          ∧ npc ∈ getNPCTeam busyController
          ∧ defender ∈ getPlayerTeam busyController
          ∧ sampleEnv.isAttackPossible npc.position defender.position npc.character.range = true
          ∧ ∀ u ∈ (attackTheEnemy c2 (some npc) (some defender)).state.teams,
              u ∈ busyController.state.teams
                ∨ u = { defender with character :=
                          defender.character.damage (attackPoints npc defender) })
      ∧ (∃ (cell : Int) (c' : Controller),
          (stepAI sampleEnv farController).controller? = some c'
            ∧ sampleEnemy 15 3 63 ∈ getNPCTeam farController
            ∧ cell ∈ arrayOfCell sampleEnv farController
            ∧ sampleEnv.isStepPossible (sampleEnemy 15 3 63).position (some cell)
                (sampleEnemy 15 3 63).character.step = true
            ∧ (sampleEnemy 15 3 63).position ≠ some cell
            ∧ c'.state.teams
                = farController.state.teams.erase (sampleEnemy 15 3 63)
                  ++ [{ sampleEnemy 15 3 63 with position := some cell }]
            ∧ c'.trace = farController.trace ++ [Event.stepAI, Event.endOfTurn]) :=
  ⟨(stepAI_attacks_or_moves sampleEnv busyController (by decide) (by decide)).1
      ⟨sampleEnemy 15 3 1, by decide, samplePlayer 20 50 0, by decide, by decide⟩,
   (stepAI_attacks_or_moves sampleEnv farController (by decide) (by decide)).2
      (by decide) (by decide) rfl (sampleEnemy 15 3 63) (by decide)
      ⟨62, by decide, by decide⟩⟩

/-- C15 as stated fails: on `boxedController` both sides are on the board and
no unit of the opposing side has a player unit in range, yet `stepAI` leaves
every unit where it stood: the unit it picks, the one on cell 63, has no free
cell within its step range. -/
theorem stepAI_moves_nobody_when_boxed :
    (getNPCTeam boxedController).length = 4
      ∧ (getPlayerTeam boxedController).length = 1
      ∧ canAttackEnemies sampleEnv boxedController = []
      ∧ pickedNPC boxedController = some (sampleEnemy 15 3 63)
      ∧ (stepAI sampleEnv boxedController).controller?.map (fun c => c.state.teams)
          = some boxedController.state.teams := by
  refine ⟨by decide, by decide, by decide, by decide, by decide!⟩
/-! ## The destination search: result and failure -/

/-- A search that came to a result comes to the same result at any greater
depth. -/
theorem indexStep_fuel_mono (env : Env) (npc : PositionedCharacter) :
    ∀ (n : Nat) (cells : List Int) (rnd : List Nat),
      indexStep env npc n cells rnd ≠ .fuel →
      ∀ m, n ≤ m → indexStep env npc m cells rnd = indexStep env npc n cells rnd := by
  intro n
  induction n with
  | zero => intro cells rnd h; simp [indexStep] at h
  | succ n ih =>
    intro cells rnd h m hm
    obtain ⟨k, rfl⟩ : ∃ k, m = k + 1 := ⟨m - 1, by omega⟩
    unfold indexStep at h ⊢
    simp only at h ⊢
    split
    · split
      · rfl
      · rename_i h1 h2
        rw [if_pos h1, if_neg h2] at h
        exact ih _ _ h k (by omega)
    · rfl

theorem arrayOfCell_range (env : Env) (c : Controller) (x : Int) (hx : x ∈ arrayOfCell env c) :
    0 ≤ x ∧ x < (env.boardSize : Int) ^ 2 := by
  unfold arrayOfCell at hx
  have h := (List.mem_filter.mp hx).1
  rw [List.mem_map] at h
  obtain ⟨k, hk, rfl⟩ := h
  rw [List.mem_range] at hk
  constructor
  · exact Int.ofNat_nonneg k
  · have : ((k : Nat) : Int) < ((env.boardSize ^ 2 : Nat) : Int) := by exact_mod_cast hk
    simpa using this

/-- C16: whatever the roster, the unit and the draws, if some unoccupied cell
of the board is within the step range of the unit, then `indexStep` on
`arrayOfCell` returns a cell within a recursion depth of the number of
unoccupied cells (each call takes one sample, so that many samples at most,
and no more draws are used up), any greater depth gives the same result, and
the cell is an unoccupied cell of the board within the step range. -/
theorem indexStep_returns_legal_cell (env : Env) (c : Controller) (npc : PositionedCharacter)
    (rnd : List Nat)
    (hlegal : ∃ x ∈ arrayOfCell env c,
      env.isStepPossible npc.position (some x) npc.character.step = true) :
    ∃ (cell : Int) (rnd' : List Nat),
      indexStep env npc (arrayOfCell env c).length (arrayOfCell env c) rnd
          = .found (some cell) rnd'
        ∧ (∀ n, (arrayOfCell env c).length ≤ n →
            indexStep env npc n (arrayOfCell env c) rnd = .found (some cell) rnd')
        ∧ rnd.length ≤ rnd'.length + (arrayOfCell env c).length
        ∧ cell ∈ arrayOfCell env c
        ∧ (∀ u ∈ c.state.teams, u.position ≠ some cell)
        ∧ 0 ≤ cell ∧ cell < (env.boardSize : Int) ^ 2
        ∧ env.isStepPossible npc.position (some cell) npc.character.step = true := by
  obtain ⟨cell, rnd', h1, h2, h3, h4⟩ :=
    indexStep_finds env npc (arrayOfCell env c).length (arrayOfCell env c) rnd (le_refl _) hlegal
  refine ⟨cell, rnd', h1, ?_, h4, h2, arrayOfCell_free env c cell h2,
    (arrayOfCell_range env c cell h2).1, (arrayOfCell_range env c cell h2).2, h3⟩
  intro n hn
  rw [indexStep_fuel_mono env npc _ _ _ (by rw [h1]; simp) n hn, h1]

/-- C16 on the sample board: the unit on cell 1 of a two-unit roster finds a
cell. -/
theorem indexStep_returns_legal_cell_witness :
    ∃ (cell : Int) (rnd' : List Nat),
      indexStep sampleEnv (sampleEnemy 15 3 1)
          (arrayOfCell sampleEnv
            (sampleController [samplePlayer 20 50 0, sampleEnemy 15 3 1] none)).length
          (arrayOfCell sampleEnv
            (sampleController [samplePlayer 20 50 0, sampleEnemy 15 3 1] none)) [5, 0]
          = .found (some cell) rnd'
        ∧ (∀ n, (arrayOfCell sampleEnv
              (sampleController [samplePlayer 20 50 0, sampleEnemy 15 3 1] none)).length ≤ n →
            indexStep sampleEnv (sampleEnemy 15 3 1) n
              (arrayOfCell sampleEnv
                (sampleController [samplePlayer 20 50 0, sampleEnemy 15 3 1] none)) [5, 0]
              = .found (some cell) rnd')
        ∧ [5, 0].length ≤ rnd'.length + (arrayOfCell sampleEnv
            (sampleController [samplePlayer 20 50 0, sampleEnemy 15 3 1] none)).length
        ∧ cell ∈ arrayOfCell sampleEnv
            (sampleController [samplePlayer 20 50 0, sampleEnemy 15 3 1] none)
        ∧ (∀ u ∈ (sampleController [samplePlayer 20 50 0, sampleEnemy 15 3 1] none).state.teams,
            u.position ≠ some cell)
        ∧ 0 ≤ cell ∧ cell < (sampleEnv.boardSize : Int) ^ 2
        ∧ sampleEnv.isStepPossible (sampleEnemy 15 3 1).position (some cell)
            (sampleEnemy 15 3 1).character.step = true :=
  indexStep_returns_legal_cell sampleEnv
    (sampleController [samplePlayer 20 50 0, sampleEnemy 15 3 1] none) (sampleEnemy 15 3 1)
    [5, 0] ⟨2, by decide, by decide⟩

/-- When no candidate is within step range the search uses up the candidates
and then, on the empty array, either repeats itself for ever or, if the
geometry predicate accepts `undefined`, returns `undefined`. -/
theorem indexStep_exhausts (env : Env) (npc : PositionedCharacter) :
    ∀ (n : Nat) (cells : List Int) (rnd : List Nat), cells.length < n →
      (∀ x ∈ cells, env.isStepPossible npc.position (some x) npc.character.step = false) →
      (env.isStepPossible npc.position none npc.character.step = false →
          indexStep env npc n cells rnd = .overflow)
        ∧ (env.isStepPossible npc.position none npc.character.step = true →
          ∃ rnd', indexStep env npc n cells rnd = .found none rnd') := by
  intro n
  induction n with
  | zero => intro cells rnd h; omega
  | succ n ih =>
    intro cells rnd hlen hfar
    cases cells with
    | nil =>
      constructor
      · intro h
        unfold indexStep
        simp [h]
      · intro h
        unfold indexStep
        simp [h]
    | cons a as =>
      have hpos : 0 < (a :: as).length := by simp
      have hlt := random_lt (a :: as).length rnd hpos
      have hy : env.isStepPossible npc.position
          (some (a :: as)[(random (a :: as).length rnd).1]) npc.character.step = false :=
        hfar _ (List.getElem_mem _)
      have hrec := ih ((a :: as).eraseIdx (random (a :: as).length rnd).1)
        (random (a :: as).length rnd).2
        (by rw [List.length_eraseIdx_of_lt hlt]; simp at hlen ⊢; omega)
        (fun x hx => hfar x (List.mem_of_mem_eraseIdx hx))
      have hstep : indexStep env npc (n + 1) (a :: as) rnd
          = indexStep env npc n ((a :: as).eraseIdx (random (a :: as).length rnd).1)
              (random (a :: as).length rnd).2 := by
        conv_lhs => unfold indexStep
        simp only
        rw [List.getElem?_eq_getElem hlt, hy]
        simp
      rw [hstep]
      exact hrec
/-- C17 fails on the code.  On `boxedController` no unoccupied cell is within
the step range of the unit on cell 63, which `stepAI` picks.  The search
removes all 59 candidates and then, on the empty array, calls itself again
with nothing changed: at no depth does it return (`overflow`), so it neither
stops at the exhausted pool nor reports it; `stepAI` dies of the recursion
with the roster as it was.  With a step predicate that accepts `undefined`
the search returns `undefined` and the unit is moved to no cell at all. -/
theorem indexStep_overflows_when_boxed :
    (∀ x ∈ arrayOfCell sampleEnv boxedController,
        sampleEnv.isStepPossible (sampleEnemy 15 3 63).position (some x)
          (sampleEnemy 15 3 63).character.step = false)
      ∧ (arrayOfCell sampleEnv boxedController).length = 59
      ∧ (∀ (n : Nat) (rnd : List Nat), 59 < n →
          indexStep sampleEnv (sampleEnemy 15 3 63) n
            (arrayOfCell sampleEnv boxedController) rnd = StepSearch.overflow)
      ∧ stepAI sampleEnv boxedController
          = Result.thrown { boxedController with trace := [Event.stepAI] }
      ∧ (stepAI lenientEnv boxedController).controller?.map
            (fun c => c.state.teams.map (fun u => (u.position, u.character.isPlayer)))
          = some [(some 0, true), (some 62, false), (some 55, false), (some 54, false),
                  (none, false)] := by
  have hfar : ∀ x ∈ arrayOfCell sampleEnv boxedController,
      sampleEnv.isStepPossible (sampleEnemy 15 3 63).position (some x)
        (sampleEnemy 15 3 63).character.step = false := by decide
  have hlen : (arrayOfCell sampleEnv boxedController).length = 59 := by decide
  refine ⟨hfar, hlen, ?_, by decide!, by decide!⟩
  intro n rnd hn
  exact (indexStep_exhausts sampleEnv (sampleEnemy 15 3 63) n
    (arrayOfCell sampleEnv boxedController) rnd (by rw [hlen]; exact hn) hfar).1 rfl
/-! ## The new level -/

/-- The roster after `nextLevel` on the way to a new level. -/
theorem nextLevel_teams (env : Env) (c : Controller) (h : c.state.currentLevel + 1 ≤ 4) :
    (nextLevel env c).state.teams = placedUnits env c ++ newWave env c := by
  have h' : ¬ (4 < c.state.currentLevel + 1) := by omega
  unfold nextLevel newWave placedUnits unitsToPlace
  simp only [Controller.log, Controller.setTeams, gt_iff_lt, h', if_false, renderScore,
    getPlayerTeam]

theorem reposition_characters :
    ∀ (units : List PositionedCharacter) (coordinates : List Int) (rnd : List Nat),
      (reposition units coordinates rnd).1.map (fun char => char.character)
        = units.map (fun char => char.character) := by
  intro units
  induction units with
  | nil => intro coordinates rnd; rfl
  | cons u rest ih =>
    intro coordinates rnd
    simp only [reposition, List.map_cons]
    rw [ih]

/-- Drawing without putting back: with distinct coordinates, at least as many
as units, every unit gets one of them and no two units the same. -/
theorem reposition_distinct :
    ∀ (units : List PositionedCharacter) (coordinates : List Int) (rnd : List Nat),
      coordinates.Nodup → units.length ≤ coordinates.length →
      (∀ u ∈ (reposition units coordinates rnd).1,
          ∃ x ∈ coordinates, u.position = some x)
        ∧ DistinctPositions (reposition units coordinates rnd).1 := by
  intro units
  induction units with
  | nil =>
    intro coordinates rnd _ _
    exact ⟨fun u hu => (by cases hu), List.nodup_nil⟩
  | cons u rest ih =>
    intro coordinates rnd hnodup hlen
    have hpos : 0 < coordinates.length := by simp at hlen; omega
    have hlt := random_lt coordinates.length rnd hpos
    have hget := List.getElem?_eq_getElem hlt
    have hrec := ih (coordinates.eraseIdx (random coordinates.length rnd).1)
      (random coordinates.length rnd).2
      (hnodup.sublist (List.eraseIdx_sublist _ _))
      (by rw [List.length_eraseIdx_of_lt hlt]; simp at hlen; omega)
    have hout : coordinates[(random coordinates.length rnd).1]
        ∉ coordinates.eraseIdx (random coordinates.length rnd).1 := by
      intro hmem
      rw [List.mem_eraseIdx_iff_getElem] at hmem
      obtain ⟨i, hi, hne, he⟩ := hmem
      exact hne ((List.Nodup.getElem_inj_iff hnodup).mp he)
    simp only [reposition]
    constructor
    · intro v hv
      rcases List.mem_cons.mp hv with h | h
      · exact ⟨_, List.getElem_mem hlt, by rw [h, hget]⟩
      · obtain ⟨x, hx, e⟩ := hrec.1 v h
        exact ⟨x, List.mem_of_mem_eraseIdx hx, e⟩
    · unfold DistinctPositions
      rw [List.map_cons, List.nodup_cons]
      refine ⟨?_, hrec.2⟩
      intro hmem
      rcases List.mem_map.mp hmem with ⟨v, hv, e⟩
      obtain ⟨x, hx, e'⟩ := hrec.1 v hv
      rw [e', hget] at e
      injection e with e
      exact hout (e ▸ hx)
theorem filter_length_of_characters (p : Character → Bool)
    (l1 l2 : List PositionedCharacter)
    (h : l1.map (fun char => char.character) = l2.map (fun char => char.character)) :
    (l1.filter (fun char => p char.character)).length
      = (l2.filter (fun char => p char.character)).length := by
  have key : ∀ l : List PositionedCharacter,
      (l.filter (fun char => p char.character)).length
        = List.countP p (l.map (fun char => char.character)) := by
    intro l
    rw [← List.countP_eq_length_filter, List.countP_map]
    rfl
  rw [key l1, key l2, h]

theorem iterate_statsUp_isPlayer (env : Env)
    (hstats : ∀ ch, (env.statsUp ch).isPlayer = ch.isPlayer) (n : Nat) (ch : Character) :
    ((env.statsUp)^[n] ch).isPlayer = ch.isPlayer := by
  induction n generalizing ch with
  | zero => rfl
  | succ n ih => rw [Function.iterate_succ_apply, ih, hstats]

theorem filter_length_all (l : List PositionedCharacter) (p : PositionedCharacter → Bool)
    (h : ∀ u ∈ l, p u = true) : (l.filter p).length = l.length := by
  rw [List.filter_eq_self.mpr h]

theorem filter_length_none (l : List PositionedCharacter) (p : PositionedCharacter → Bool)
    (h : ∀ u ∈ l, p u = false) : (l.filter p).length = 0 := by
  rw [List.filter_eq_nil_iff.mpr (fun u hu => by simp [h u hu])]
  rfl

/-- C18: let `generateTeam` return as many units as asked for, all of the
faction asked for, let `levelUp` and `statsUp` leave the faction of a unit as
it is, and let no unit of the opposing side be on the board.  After `nextLevel`
has advanced to a level up to 4, the player side has one unit more than
before when the new level is at most 3 and two more when it is 4, and the
opposing side has as many units as the player side. -/
theorem nextLevel_team_sizes (env : Env) (c : Controller)
    (hgen : ∀ (player : Bool) (level n : Int) (size : Option Nat),
      (env.generateTeam player level n size).length = n.toNat
        ∧ ∀ u ∈ env.generateTeam player level n size, u.character.isPlayer = player)
    (hlevelUp : ∀ ch, (env.levelUp ch).isPlayer = ch.isPlayer)
    (hstats : ∀ ch, (env.statsUp ch).isPlayer = ch.isPlayer)
    (hempty : getNPCTeam c = [])
    (hlevel : c.state.currentLevel + 1 ≤ 4) :
    (nextLevel env c).state.currentLevel = c.state.currentLevel + 1
      ∧ (getPlayerTeam (nextLevel env c)).length
          = (getPlayerTeam c).length + (if c.state.currentLevel + 1 ≤ 3 then 1 else 2)
      ∧ (getNPCTeam (nextLevel env c)).length = (getPlayerTeam (nextLevel env c)).length := by
  have hlev : (nextLevel env c).state.currentLevel = c.state.currentLevel + 1 := by
    have h' : ¬ (4 < c.state.currentLevel + 1) := by omega
    unfold nextLevel
    simp only [Controller.log, Controller.setTeams, gt_iff_lt, h', if_false, renderScore]
  -- the units that are placed
  have hplaced := reposition_characters (unitsToPlace env c)
    (env.generateCoordinates env.boardSize) c.rnd
  have hnew := hgen true (c.state.currentLevel + 1 - 1)
    (if c.state.currentLevel + 1 > 3 then 2 else 1) none
  have hq : ((if c.state.currentLevel + 1 > 3 then 2 else 1 : Int)).toNat
      = if c.state.currentLevel + 1 ≤ 3 then 1 else 2 := by
    split_ifs <;> first | rfl | omega
  have hplayersPlaced :
      ((placedUnits env c).filter (fun char => char.character.isPlayer)).length
        = (getPlayerTeam c).length + (if c.state.currentLevel + 1 ≤ 3 then 1 else 2) := by
    unfold placedUnits
    rw [filter_length_of_characters (fun ch => ch.isPlayer) _ _ hplaced]
    unfold unitsToPlace
    rw [List.filter_append, List.length_append,
      filter_length_all _ _ (fun u hu => hnew.2 u hu), hnew.1, hq]
    congr 1
    unfold getPlayerTeam
    rw [List.filter_map, List.length_map]
    congr 1
    apply List.filter_congr
    intro u _
    exact hlevelUp u.character
  have hnpcPlaced :
      ((placedUnits env c).filter (fun char => !char.character.isPlayer)).length = 0 := by
    unfold placedUnits
    rw [filter_length_of_characters (fun ch => !ch.isPlayer) _ _ hplaced]
    unfold unitsToPlace
    rw [List.filter_append, List.length_append,
      filter_length_none
        (env.generateTeam true (c.state.currentLevel + 1 - 1)
          (if c.state.currentLevel + 1 > 3 then 2 else 1) none) _
        (fun u hu => by simp [hnew.2 u hu])]
    rw [List.filter_map, List.length_map]
    have : c.state.teams.filter
        ((fun char : PositionedCharacter => !char.character.isPlayer)
          ∘ fun prev => ({ prev with character := env.levelUp prev.character }
              : PositionedCharacter))
        = getNPCTeam c := by
      unfold getNPCTeam
      apply List.filter_congr
      intro u _
      simp [hlevelUp u.character]
    rw [this, hempty]
    rfl
  have hwave := hgen false (c.state.currentLevel + 1)
    ((placedUnits env c).filter (fun char => char.character.isPlayer)).length none
  have hwaveSide : ∀ u ∈ newWave env c, u.character.isPlayer = false := by
    intro u hu
    unfold newWave at hu
    rcases List.mem_map.mp hu with ⟨v, hv, rfl⟩
    simp only [boostStats]
    rw [iterate_statsUp_isPlayer env hstats]
    exact hwave.2 v hv
  have hwaveLen : (newWave env c).length
      = ((placedUnits env c).filter (fun char => char.character.isPlayer)).length := by
    unfold newWave
    rw [List.length_map, hwave.1]
    exact Int.toNat_natCast _
  have hplayers : (getPlayerTeam (nextLevel env c)).length
      = (getPlayerTeam c).length + (if c.state.currentLevel + 1 ≤ 3 then 1 else 2) := by
    conv_lhs => unfold getPlayerTeam
    rw [nextLevel_teams env c hlevel, List.filter_append, List.length_append, hplayersPlaced,
      filter_length_none _ _ hwaveSide]
    rfl
  refine ⟨hlev, hplayers, ?_⟩
  rw [hplayers]
  conv_lhs => unfold getNPCTeam
  rw [nextLevel_teams env c hlevel, List.filter_append, List.length_append, hnpcPlaced,
    filter_length_all _ _ (fun u hu => by simp [hwaveSide u hu]), hwaveLen, hplayersPlaced]
  omega
theorem sampleEnv_generateTeam (player : Bool) (level n : Int) (size : Option Nat) :
    (sampleEnv.generateTeam player level n size).length = n.toNat
      ∧ ∀ u ∈ sampleEnv.generateTeam player level n size, u.character.isPlayer = player := by
  constructor
  · simp [sampleEnv, Function.comp_def]
  · intro u hu
    simp only [sampleEnv, List.mem_map, List.mem_range] at hu
    obtain ⟨i, _, rfl⟩ := hu
    cases player <;> rfl

/-- C18 on the sample board: one surviving player unit on level 1 becomes two
player units against two units of the opposing side on level 2. -/
theorem nextLevel_team_sizes_witness :
    (nextLevel sampleEnv
        (sampleController [samplePlayer 20 50 0] (some (samplePlayer 20 50 0)))).state.currentLevel
        = 2
      ∧ (getPlayerTeam (nextLevel sampleEnv
          (sampleController [samplePlayer 20 50 0] (some (samplePlayer 20 50 0))))).length = 2
      ∧ (getNPCTeam (nextLevel sampleEnv
          (sampleController [samplePlayer 20 50 0] (some (samplePlayer 20 50 0))))).length
          = (getPlayerTeam (nextLevel sampleEnv
              (sampleController [samplePlayer 20 50 0] (some (samplePlayer 20 50 0))))).length :=
  nextLevel_team_sizes sampleEnv
    (sampleController [samplePlayer 20 50 0] (some (samplePlayer 20 50 0)))
    sampleEnv_generateTeam (fun _ => rfl) (fun _ => rfl) (by decide) (by decide)

/-- C19: on the way to a new level, let `generateCoordinates` return distinct
cells, at least as many as there are units to place (the roster and the new
player units).  Whatever the draws, the roster after `nextLevel` is these
units in their old order, each with its own character, each on a cell of
`generateCoordinates` and no two on the same cell, followed by the new wave of
the opposing side. -/
theorem nextLevel_places_without_repeats (env : Env) (c : Controller)
    (hlevel : c.state.currentLevel + 1 ≤ 4)
    (hnodup : (env.generateCoordinates env.boardSize).Nodup)
    (henough : (unitsToPlace env c).length ≤ (env.generateCoordinates env.boardSize).length) :
    (nextLevel env c).state.teams = placedUnits env c ++ newWave env c
      ∧ (placedUnits env c).map (fun char => char.character)
          = (unitsToPlace env c).map (fun char => char.character)
      ∧ (unitsToPlace env c).length
          = c.state.teams.length
            + (env.generateTeam true (c.state.currentLevel + 1 - 1)
                (if c.state.currentLevel + 1 > 3 then 2 else 1) none).length
      ∧ (∀ u ∈ placedUnits env c,
          ∃ x ∈ env.generateCoordinates env.boardSize, u.position = some x)
      ∧ DistinctPositions (placedUnits env c) := by
  have h := reposition_distinct (unitsToPlace env c) (env.generateCoordinates env.boardSize)
    c.rnd hnodup henough
  refine ⟨nextLevel_teams env c hlevel, reposition_characters _ _ _, ?_, h.1, h.2⟩
  simp [unitsToPlace]

/-- C19 on the sample board: the two units of `farController` and the new
player unit land on three different cells. -/
theorem nextLevel_places_without_repeats_witness :
    DistinctPositions (placedUnits sampleEnv farController)
      ∧ (placedUnits sampleEnv farController).map (fun char => char.position)
          = [some 0, some 1, some 8] :=
  ⟨(nextLevel_places_without_repeats sampleEnv farController (by decide) (by decide)
      (by decide)).2.2.2.2, by decide⟩

end GameController
